import Mathlib

/-!
Shallow embedding of the Go static-asset deployer (`main.go` of
gerrits-ecommerce/magento2-static-deploy) and proofs about it.

The filesystem is modelled as an association list from absolute destination
paths (strings) to file contents (strings); `os.Stat` on a destination path is
`fsLookup`, and a successful `copyFile` prepends an entry.  Source directories
are modelled as the list of files `filepath.Walk` would enumerate, in walk
order; each file carries a `readable` flag, and `copyFile` fails exactly on an
unreadable file (modelling the I/O errors the Go code reacts to).  Time-based
values (`Duration`, the generated timestamp) are threaded as opaque inputs.
-/

/-- Structure DeployJob from main.go: a single (locale, theme, area) combination. -/
structure DeployJob where
  Locale : String
  Theme : String
  Area : String
deriving DecidableEq, Repr

/-- Structure DeployResult from main.go (the `Duration` field, a wall-clock
measurement, is not modelled). -/
structure DeployResult where
  Job : DeployJob
  FilesCount : Nat
  Error : String
deriving DecidableEq, Repr

/-- One regular file of a source directory tree, as `filepath.Walk` delivers
it: its path relative to the walk root, its bytes, and whether `copyFile`
would succeed on it (`readable = false` models a read/copy I/O error). -/
structure SrcFile where
  relPath : String
  content : String
  readable : Bool
deriving DecidableEq, Repr

/-- The model of the destination filesystem under `pub/static`: an
association list from destination path to file content. -/
abbrev FS := List (String × String)

/-- Embeds `os.Stat` on a destination path: the first entry with the given
path, if any. -/
def fsLookup : FS → String → Option String
  | [], _ => none
  | (k, v) :: rest, p => if k = p then some v else fsLookup rest p

/-- Embeds Go `strings.Split(s, sep)` for a one-character separator, on the
character list of the string. -/
def splitOnChar (c : Char) : List Char → List (List Char)
  | [] => [[]]
  | x :: xs =>
    let r := splitOnChar c xs
    if x = c then [] :: r
    else
      match r with
      | h :: t => (x :: h) :: t
      | [] => [[x]]

/-- Helper for `strContains`: does `pat` occur as a contiguous sublist? -/
def listContainsSub (pat : List Char) : List Char → Bool
  | [] => pat.isPrefixOf ([] : List Char)
  | x :: xs => pat.isPrefixOf (x :: xs) || listContainsSub pat xs

/-- Embeds Go `strings.Contains(s, pat)`. -/
def strContains (s pat : String) : Bool :=
  listContainsSub pat.data s.data

/-- Embeds Go `strings.HasPrefix(s, p)`. -/
def strStartsWith (s p : String) : Bool :=
  p.data.isPrefixOf s.data

/-- Embeds `shouldSkipFile` (main.go lines 634-646): exclude paths containing
a `/docs/` (or `\docs\`) segment and paths starting with `tailwind/`
(or `tailwind\`).  Nothing else is excluded. -/
def shouldSkipFile (relPath : String) : Bool :=
  strContains relPath "/docs/" || strContains relPath "\\docs\\" ||
  strStartsWith relPath "tailwind/" || strStartsWith relPath "tailwind\\"

/-- Embeds the destination-path computation of `copyDirectoryWithModulePrefix`
(main.go lines 437-451): `filepath.Join(dst, modulePrefix, relPath)` when the
module prefix is non-empty, else `filepath.Join(dst, relPath)`. -/
def joinDest (dst modPre relPath : String) : String :=
  if modPre = "" then dst ++ "/" ++ relPath
  else dst ++ "/" ++ modPre ++ "/" ++ relPath

/-- Embeds the `filepath.Walk` body of `copyDirectoryWithModulePrefix`
(main.go lines 417-469), accumulator style exactly as the Go `fileCount`
variable accumulates: skip excluded files, skip files whose destination path
already exists, copy otherwise; a failing `copyFile` aborts the walk,
returning the filesystem as mutated so far, the count accumulated so far,
and the error. -/
def copyDirGo (dst modPre : String) : List SrcFile → FS → Nat → FS × Nat × Option String
  | [], fs, acc => (fs, acc, none)
  | f :: rest, fs, acc =>
    if shouldSkipFile f.relPath then copyDirGo dst modPre rest fs acc
    else
      match fsLookup fs (joinDest dst modPre f.relPath) with
      | some _ => copyDirGo dst modPre rest fs acc
      | none =>
        if f.readable then
          copyDirGo dst modPre rest ((joinDest dst modPre f.relPath, f.content) :: fs) (acc + 1)
        else
          (fs, acc, some ("copy error: " ++ f.relPath))

/-- Embeds `copyDirectoryWithModulePrefix(src, dst, modulePrefix)`:
returns the new filesystem, the number of files placed, and an error if the
walk aborted. -/
def copyDirectoryWithModule (files : List SrcFile) (dst modPre : String) : FS → FS × Nat × Option String :=
  fun fs => copyDirGo dst modPre files fs 0

/-- Embeds `copyDirectory(src, dst)` (main.go lines 471-474): copy with an
empty module prefix. -/
def copyDirectory (files : List SrcFile) (dst : String) : FS → FS × Nat × Option String :=
  copyDirectoryWithModule files dst ""

/-- One nested sub-package of a multi-module package (a `src/module-*`
directory, main.go lines 373-404).  `subModuleName` holds the result of
`getModuleName` on the sub-package directory ("" when its `module.xml` is
missing or unparsable); the two `Option`s are the directories that
`os.Stat` finds, with their walked file lists. -/
structure SubModuleSrc where
  subModuleName : String
  viewAreaWeb : Option (List SrcFile)
  viewBaseWeb : Option (List SrcFile)
deriving DecidableEq, Repr

/-- One third-party package `vendor/<vendor>/<package>` as `deployTheme`
enumerates it (main.go lines 294-405).  `moduleName` holds the result of
`getModuleName(packagePath)`: the `<module name="...">` attribute of
`etc/module.xml` or `src/etc/module.xml`, or "" when neither exists or the
XML does not parse (main.go lines 610-631).  The four `Option`s are the view
directories probed by `os.Stat`, in code order. -/
structure PackageSrc where
  moduleName : String
  viewAreaWeb : Option (List SrcFile)
  srcViewAreaWeb : Option (List SrcFile)
  viewBaseWeb : Option (List SrcFile)
  srcViewBaseWeb : Option (List SrcFile)
  subModules : List SubModuleSrc
deriving DecidableEq, Repr

/-- All sources a single `deployTheme` call reads, resolved against the job:
whether `os.MkdirAll(destDir)` succeeds, the theme web directory
(`app/design/{area}/{vendor}/{theme}/web`) if it stats, the shared library
directory (`vendor/mage-os/magento2-base/lib/web`) if it stats, and the
flattened list of vendor packages in the order the two nested `ReadDir`
loops deliver them. -/
structure ThemeJobSrc where
  mkdirOk : Bool
  themeWeb : Option (List SrcFile)
  lib : Option (List SrcFile)
  packages : List PackageSrc
deriving DecidableEq, Repr

/-- Embeds one of the four per-package directory blocks of `deployTheme`
(e.g. main.go lines 305-320): if the directory stats, copy it — without
module prefix when the module name is `Magento_Email`, with the module name
as prefix otherwise; a copy error triggers the Go `continue`, reported here
as the `Bool` abort flag (the rest of this package is skipped and the
erroring directory's partial count is discarded, but its partially placed
files persist). -/
def pkgDirStep (dir : Option (List SrcFile)) (moduleName dst : String) (fs : FS) (acc : Nat) :
    FS × Nat × Bool :=
  match dir with
  | none => (fs, acc, false)
  | some files =>
    match
      (if moduleName = "Magento_Email" then copyDirectory files dst fs
       else copyDirectoryWithModule files dst moduleName fs) with
    | (fs1, n, none) => (fs1, acc + n, false)
    | (fs1, _, some _) => (fs1, acc, true)

/-- Embeds the `view/base/web` block of the `src/module-*` loop
(main.go lines 394-402). -/
def subModuleBase (dst : String) (sub : SubModuleSrc) (fs : FS) (acc : Nat) : FS × Nat :=
  match sub.viewBaseWeb with
  | none => (fs, acc)
  | some files =>
    match copyDirectoryWithModule files dst sub.subModuleName fs with
    | (fs1, n, none) => (fs1, acc + n)
    | (fs1, _, some _) => (fs1, acc)

/-- Embeds one iteration of the `src/module-*` loop (main.go lines 376-403):
the area view directory, whose copy error `continue`s to the next sub-module
(skipping this sub-module's base directory), then the base view directory. -/
def subModuleStep (dst : String) (sub : SubModuleSrc) (fs : FS) (acc : Nat) : FS × Nat :=
  match sub.viewAreaWeb with
  | none => subModuleBase dst sub fs acc
  | some files =>
    match copyDirectoryWithModule files dst sub.subModuleName fs with
    | (fs1, n, none) => subModuleBase dst sub fs1 (acc + n)
    | (fs1, _, some _) => (fs1, acc)

/-- Embeds the fold of the `src/module-*` loop over all sub-modules. -/
def deploySubModules (dst : String) : List SubModuleSrc → FS → Nat → FS × Nat
  | [], fs, acc => (fs, acc)
  | sub :: rest, fs, acc =>
    match subModuleStep dst sub fs acc with
    | (fs1, acc1) => deploySubModules dst rest fs1 acc1

/-- Embeds one iteration of the package loop of `deployTheme`
(main.go lines 294-405): the four view-directory blocks in code order, each
of whose copy errors `continue`s to the next package (abort flag), then the
sub-module scan. -/
def deployPackage (dst : String) (pkg : PackageSrc) (fs : FS) : FS × Nat :=
  match pkgDirStep pkg.viewAreaWeb pkg.moduleName dst fs 0 with
  | (fs1, acc1, true) => (fs1, acc1)
  | (fs1, acc1, false) =>
    match pkgDirStep pkg.srcViewAreaWeb pkg.moduleName dst fs1 acc1 with
    | (fs2, acc2, true) => (fs2, acc2)
    | (fs2, acc2, false) =>
      match pkgDirStep pkg.viewBaseWeb pkg.moduleName dst fs2 acc2 with
      | (fs3, acc3, true) => (fs3, acc3)
      | (fs3, acc3, false) =>
        match pkgDirStep pkg.srcViewBaseWeb pkg.moduleName dst fs3 acc3 with
        | (fs4, acc4, true) => (fs4, acc4)
        | (fs4, acc4, false) => deploySubModules dst pkg.subModules fs4 acc4

/-- Embeds the vendor/package double loop of `deployTheme`: the per-package
counts accumulate into the job's `fileCount`. -/
def deployPackages (dst : String) : List PackageSrc → FS → Nat → FS × Nat
  | [], fs, acc => (fs, acc)
  | pkg :: rest, fs, acc =>
    match deployPackage dst pkg fs with
    | (fs1, n) => deployPackages dst rest fs1 (acc + n)

/-- The error message of main.go line 410. -/
def notFoundMsg (job : DeployJob) : String :=
  "theme directory not found for " ++ job.Area ++ "/" ++ job.Theme

/-- Embeds the tail of `deployTheme` (main.go lines 277-413): the extension
scan followed by the zero-count check — a job that placed no file at all
returns count 0 with the "theme directory not found" error. -/
def deployExtLayers (dst : String) (job : DeployJob) (src : ThemeJobSrc) (fs : FS) (acc : Nat) :
    FS × Nat × Option String :=
  match deployPackages dst src.packages fs acc with
  | (fs1, total) =>
    if total = 0 then (fs1, 0, some (notFoundMsg job))
    else (fs1, total, none)

/-- Embeds the shared-library block of `deployTheme` (main.go lines 267-275):
a copy error aborts the whole job with count 0. -/
def deployLibLayer (dst : String) (job : DeployJob) (src : ThemeJobSrc) (fs : FS) (acc : Nat) :
    FS × Nat × Option String :=
  match src.lib with
  | none => deployExtLayers dst job src fs acc
  | some files =>
    match copyDirectory files dst fs with
    | (fs1, n, none) => deployExtLayers dst job src fs1 (acc + n)
    | (fs1, _, some e) => (fs1, 0, some ("failed to copy library files: " ++ e))

/-- Embeds the theme-web block of `deployTheme` (main.go lines 257-265):
a copy error in the theme's own asset layer aborts the whole job with
count 0. -/
def deployThemeWebLayer (dst : String) (job : DeployJob) (src : ThemeJobSrc) (fs : FS) :
    FS × Nat × Option String :=
  match src.themeWeb with
  | none => deployLibLayer dst job src fs 0
  | some files =>
    match copyDirectory files dst fs with
    | (fs1, n, none) => deployLibLayer dst job src fs1 n
    | (fs1, _, some e) => (fs1, 0, some ("failed to copy theme directory: " ++ e))

/-- The destination directory of a job (main.go line 248):
`filepath.Join(magentoRoot, "pub/static", job.Area, job.Theme, job.Locale)`. -/
def destDirOf (magentoRoot : String) (job : DeployJob) : String :=
  magentoRoot ++ "/pub/static/" ++ job.Area ++ "/" ++ job.Theme ++ "/" ++ job.Locale

/-- Embeds `deployTheme` (main.go lines 237-414).  Returns the resulting
filesystem (mutations persist even on error), the returned file count
(0 on every error path) and the returned error. -/
def deployTheme (magentoRoot : String) (job : DeployJob) (version : String)
    (src : ThemeJobSrc) (fs : FS) : FS × Nat × Option String :=
  if (splitOnChar '/' job.Theme.data).length ≠ 2 then
    (fs, 0, some ("invalid theme name: " ++ job.Theme))
  else if src.mkdirOk = false then
    (fs, 0, some "failed to create destination directory")
  else
    deployThemeWebLayer (destDirOf magentoRoot job) job src fs

/-- Embeds the body of `worker` for one task (main.go lines 167-197):
build the `DeployResult`, converting a "theme directory not found" error
into the non-error skipped outcome. -/
def workerProcess (magentoRoot : String) (job : DeployJob) (version : String)
    (src : ThemeJobSrc) (fs : FS) : DeployResult × FS :=
  match deployTheme magentoRoot job version src fs with
  | (fs1, fileCount, none) => (⟨job, fileCount, ""⟩, fs1)
  | (fs1, fileCount, some e) =>
    if strContains e "theme directory not found" then
      (⟨job, fileCount, ""⟩, fs1)
    else
      (⟨job, fileCount,
        job.Theme ++ "/" ++ job.Area ++ " (" ++ job.Locale ++ "): " ++ e⟩, fs1)

/-- Embeds `createDeployJobs` (main.go lines 123-139): the triple nested
loop over locales, themes, areas. -/
def createDeployJobs (locales themes areas : List String) : List DeployJob :=
  locales.flatMap fun locale =>
    themes.flatMap fun theme =>
      areas.map fun area => ⟨locale, theme, area⟩

/-- Functional model of `processJobs` (main.go lines 201-226): the results
array is pre-sized to the job list and slot `i` is written exactly once, by
the worker that processed job `i`; destination subtrees are per-job disjoint,
so each job is modelled as running against the initial filesystem. -/
def processJobs (magentoRoot : String) (jobs : List DeployJob) (version : String)
    (srcOf : DeployJob → ThemeJobSrc) (fs : FS) : List DeployResult :=
  jobs.map fun j => (workerProcess magentoRoot j version (srcOf j) fs).1

/-- Embeds the error scan of `main` (main.go lines 82-88): a result counts
as a failure when its error text is non-empty and does not contain
"theme not found". -/
def hasErrors (results : List DeployResult) : Bool :=
  results.any fun r => r.Error ≠ "" && !(strContains r.Error "theme not found")

/-- Embeds `deployStatic` (main.go lines 95-120).  `version` is the
timestamp string generated at line 97.  The second component models the
content of `pub/static/deployed_version.txt`: `createDeploymentVersionFile`
(main.go lines 560-574) writes exactly `version` there, and is invoked iff
the summed file count over all results is positive. -/
def deployStatic (magentoRoot : String) (locales themes areas : List String)
    (version : String) (srcOf : DeployJob → ThemeJobSrc) (fs : FS) :
    List DeployResult × Option String :=
  let jobs := createDeployJobs locales themes areas
  let results := processJobs magentoRoot jobs version srcOf fs
  let totalFiles : Nat := (results.map fun r => r.FilesCount).sum
  (results, if totalFiles > 0 then some version else none)

/-! Section: Basic lemmas about the filesystem model -/

theorem fsLookup_cons (k v p : String) (fs : FS) :
    fsLookup ((k, v) :: fs) p = if k = p then some v else fsLookup fs p := rfl

/-- Predicate: `fs1` keeps every association of `fs`. -/
def fsPreserved (fs fs1 : FS) : Prop :=
  ∀ dp c, fsLookup fs dp = some c → fsLookup fs1 dp = some c

theorem fsPreserved_refl (fs : FS) : fsPreserved fs fs := fun _ _ h => h

theorem fsPreserved_trans {a b c : FS} (h1 : fsPreserved a b) (h2 : fsPreserved b c) :
    fsPreserved a c := fun dp v h => h2 dp v (h1 dp v h)

theorem fsPreserved_cons (k v : String) (fs : FS) (hfree : fsLookup fs k = none) :
    fsPreserved fs ((k, v) :: fs) := by
  intro dp c h
  rw [fsLookup_cons]
  split
  next he => rw [he] at hfree; rw [hfree] at h; cases h
  next => exact h

theorem copyDirGo_pres (dst mp : String) (files : List SrcFile) (fs : FS) (acc : Nat) :
    fsPreserved fs (copyDirGo dst mp files fs acc).1 := by
  induction files generalizing fs acc with
  | nil => exact fsPreserved_refl fs
  | cons f rest ih =>
    rw [copyDirGo]
    by_cases hs : shouldSkipFile f.relPath
    · simp only [hs, if_true]
      exact ih fs acc
    · simp only [hs, if_false, Bool.false_eq_true]
      cases hl : fsLookup fs (joinDest dst mp f.relPath) with
      | some v =>
        simp only [hl]
        exact ih fs acc
      | none =>
        simp only [hl]
        by_cases hr : f.readable
        · simp only [hr, if_true]
          exact fsPreserved_trans (fsPreserved_cons _ _ _ hl) (ih _ _)
        · simp only [hr, if_false, Bool.false_eq_true]
          exact fsPreserved_refl fs

theorem copy_res_pres {files : List SrcFile} {dst mp : String} {fs fs1 : FS} {n : Nat}
    {e : Option String} (h : copyDirectoryWithModule files dst mp fs = (fs1, n, e)) :
    fsPreserved fs fs1 := by
  have hp := copyDirGo_pres dst mp files fs 0
  rw [show copyDirGo dst mp files fs 0 = copyDirectoryWithModule files dst mp fs from rfl, h] at hp
  exact hp

theorem copyDir_res_pres {files : List SrcFile} {dst : String} {fs fs1 : FS} {n : Nat}
    {e : Option String} (h : copyDirectory files dst fs = (fs1, n, e)) :
    fsPreserved fs fs1 :=
  copy_res_pres h


theorem pkgDirStep_pres (dir : Option (List SrcFile)) (m dst : String) (fs : FS) (acc : Nat) :
    fsPreserved fs (pkgDirStep dir m dst fs acc).1 := by
  unfold pkgDirStep
  split
  · exact fsPreserved_refl fs
  · split
    next files fs1 n heq =>
      by_cases hm : m = "Magento_Email"
      · rw [if_pos hm] at heq; exact copyDir_res_pres heq
      · rw [if_neg hm] at heq; exact copy_res_pres heq
    next files fs1 n e heq =>
      by_cases hm : m = "Magento_Email"
      · rw [if_pos hm] at heq; exact copyDir_res_pres heq
      · rw [if_neg hm] at heq; exact copy_res_pres heq

theorem subModuleBase_pres (dst : String) (sub : SubModuleSrc) (fs : FS) (acc : Nat) :
    fsPreserved fs (subModuleBase dst sub fs acc).1 := by
  unfold subModuleBase
  split
  · exact fsPreserved_refl fs
  · split
    next files fs1 n heq => exact copy_res_pres heq
    next files fs1 n e heq => exact copy_res_pres heq

theorem subModuleStep_pres (dst : String) (sub : SubModuleSrc) (fs : FS) (acc : Nat) :
    fsPreserved fs (subModuleStep dst sub fs acc).1 := by
  unfold subModuleStep
  split
  · exact subModuleBase_pres dst sub fs acc
  · split
    next files fs1 n heq =>
      exact fsPreserved_trans (copy_res_pres heq) (subModuleBase_pres dst sub fs1 _)
    next files fs1 n e heq => exact copy_res_pres heq

theorem deploySubModules_pres (dst : String) (subs : List SubModuleSrc) (fs : FS) (acc : Nat) :
    fsPreserved fs (deploySubModules dst subs fs acc).1 := by
  induction subs generalizing fs acc with
  | nil => exact fsPreserved_refl fs
  | cons sub rest ih =>
    unfold deploySubModules
    split
    next fs1 acc1 heq =>
      have h1 : fsPreserved fs fs1 := by
        have := subModuleStep_pres dst sub fs acc
        rw [heq] at this; exact this
      exact fsPreserved_trans h1 (ih fs1 acc1)

theorem deployPackage_pres (dst : String) (pkg : PackageSrc) (fs : FS) :
    fsPreserved fs (deployPackage dst pkg fs).1 := by
  unfold deployPackage
  split
  next fs1 acc1 h1 =>
    have := pkgDirStep_pres pkg.viewAreaWeb pkg.moduleName dst fs 0
    rw [h1] at this; exact this
  next fs1 acc1 h1 =>
    have p1 : fsPreserved fs fs1 := by
      have := pkgDirStep_pres pkg.viewAreaWeb pkg.moduleName dst fs 0
      rw [h1] at this; exact this
    split
    next fs2 acc2 h2 =>
      refine fsPreserved_trans p1 ?_
      have := pkgDirStep_pres pkg.srcViewAreaWeb pkg.moduleName dst fs1 acc1
      rw [h2] at this; exact this
    next fs2 acc2 h2 =>
      have p2 : fsPreserved fs fs2 := by
        refine fsPreserved_trans p1 ?_
        have := pkgDirStep_pres pkg.srcViewAreaWeb pkg.moduleName dst fs1 acc1
        rw [h2] at this; exact this
      split
      next fs3 acc3 h3 =>
        refine fsPreserved_trans p2 ?_
        have := pkgDirStep_pres pkg.viewBaseWeb pkg.moduleName dst fs2 acc2
        rw [h3] at this; exact this
      next fs3 acc3 h3 =>
        have p3 : fsPreserved fs fs3 := by
          refine fsPreserved_trans p2 ?_
          have := pkgDirStep_pres pkg.viewBaseWeb pkg.moduleName dst fs2 acc2
          rw [h3] at this; exact this
        split
        next fs4 acc4 h4 =>
          refine fsPreserved_trans p3 ?_
          have := pkgDirStep_pres pkg.srcViewBaseWeb pkg.moduleName dst fs3 acc3
          rw [h4] at this; exact this
        next fs4 acc4 h4 =>
          have p4 : fsPreserved fs fs4 := by
            refine fsPreserved_trans p3 ?_
            have := pkgDirStep_pres pkg.srcViewBaseWeb pkg.moduleName dst fs3 acc3
            rw [h4] at this; exact this
          exact fsPreserved_trans p4 (deploySubModules_pres dst pkg.subModules fs4 acc4)

theorem deployPackages_pres (dst : String) (pkgs : List PackageSrc) (fs : FS) (acc : Nat) :
    fsPreserved fs (deployPackages dst pkgs fs acc).1 := by
  induction pkgs generalizing fs acc with
  | nil => exact fsPreserved_refl fs
  | cons pkg rest ih =>
    unfold deployPackages
    split
    next fs1 n heq =>
      have h1 : fsPreserved fs fs1 := by
        have := deployPackage_pres dst pkg fs
        rw [heq] at this; exact this
      exact fsPreserved_trans h1 (ih fs1 (acc + n))

theorem deployExtLayers_pres (dst : String) (job : DeployJob) (src : ThemeJobSrc)
    (fs : FS) (acc : Nat) : fsPreserved fs (deployExtLayers dst job src fs acc).1 := by
  unfold deployExtLayers
  split
  next fs1 total heq =>
    have h1 : fsPreserved fs fs1 := by
      have := deployPackages_pres dst src.packages fs acc
      rw [heq] at this; exact this
    by_cases ht : total = 0 <;> simp only [ht, if_true, if_false] <;> exact h1

theorem deployLibLayer_pres (dst : String) (job : DeployJob) (src : ThemeJobSrc)
    (fs : FS) (acc : Nat) : fsPreserved fs (deployLibLayer dst job src fs acc).1 := by
  unfold deployLibLayer
  split
  · exact deployExtLayers_pres dst job src fs acc
  · split
    next files fs1 n heq =>
      exact fsPreserved_trans (copyDir_res_pres heq) (deployExtLayers_pres dst job src fs1 _)
    next files fs1 n e heq => exact copyDir_res_pres heq

theorem deployThemeWebLayer_pres (dst : String) (job : DeployJob) (src : ThemeJobSrc)
    (fs : FS) : fsPreserved fs (deployThemeWebLayer dst job src fs).1 := by
  unfold deployThemeWebLayer
  split
  · exact deployLibLayer_pres dst job src fs 0
  · split
    next files fs1 n heq =>
      exact fsPreserved_trans (copyDir_res_pres heq) (deployLibLayer_pres dst job src fs1 _)
    next files fs1 n e heq => exact copyDir_res_pres heq

theorem deployTheme_pres (root : String) (job : DeployJob) (v : String) (src : ThemeJobSrc)
    (fs : FS) : fsPreserved fs (deployTheme root job v src fs).1 := by
  unfold deployTheme
  split
  · exact fsPreserved_refl fs
  · split
    · exact fsPreserved_refl fs
    · exact deployThemeWebLayer_pres _ job src fs

/-- If a layer contains a non-excluded file mapping to destination path `dp`,
every file of the layer mapping to `dp` carries content `c` and is readable,
`dp` is initially free, and the layer copy completes without error, then the
layer copy leaves `c` at `dp`. -/
theorem copyDirGo_hits (dst mp : String) (files : List SrcFile) (fs : FS) (acc : Nat)
    (dp c : String)
    (hfree : fsLookup fs dp = none)
    (hmem : ∃ f ∈ files, shouldSkipFile f.relPath = false ∧ joinDest dst mp f.relPath = dp)
    (huniq : ∀ f ∈ files, shouldSkipFile f.relPath = false → joinDest dst mp f.relPath = dp →
        f.content = c ∧ f.readable = true)
    (hok : (copyDirGo dst mp files fs acc).2.2 = none) :
    fsLookup (copyDirGo dst mp files fs acc).1 dp = some c := by
  induction files generalizing fs acc with
  | nil => rcases hmem with ⟨f, hf, _⟩; cases hf
  | cons f rest ih =>
    rw [copyDirGo] at hok ⊢
    by_cases hs : shouldSkipFile f.relPath
    · simp only [hs, if_true] at hok ⊢
      refine ih fs acc hfree ?_ (fun g hg hgs hgd => huniq g (List.mem_cons_of_mem f hg) hgs hgd) hok
      rcases hmem with ⟨g, hg, hgs, hgd⟩
      cases List.mem_cons.mp hg with
      | inl h => subst h; rw [hgs] at hs; cases hs
      | inr h => exact ⟨g, h, hgs, hgd⟩
    · simp only [Bool.not_eq_true] at hs
      simp only [hs, Bool.false_eq_true, if_false] at hok ⊢
      cases hl : fsLookup fs (joinDest dst mp f.relPath) with
      | some v =>
        simp only [hl] at hok ⊢
        have hne : joinDest dst mp f.relPath ≠ dp := by
          intro he; rw [he, hfree] at hl; cases hl
        refine ih fs acc hfree ?_ (fun g hg hgs hgd => huniq g (List.mem_cons_of_mem f hg) hgs hgd) hok
        rcases hmem with ⟨g, hg, hgs, hgd⟩
        cases List.mem_cons.mp hg with
        | inl h => subst h; exact absurd hgd hne
        | inr h => exact ⟨g, h, hgs, hgd⟩
      | none =>
        simp only [hl] at hok ⊢
        by_cases hjd : joinDest dst mp f.relPath = dp
        · have hfc := huniq f (List.mem_cons_self f rest) hs hjd
          simp only [hfc.2, if_true] at hok ⊢
          have hstart : fsLookup ((joinDest dst mp f.relPath, f.content) :: fs) dp = some c := by
            rw [fsLookup_cons, if_pos hjd, hfc.1]
          exact copyDirGo_pres dst mp rest _ (acc + 1) dp c hstart
        · cases hr : f.readable with
          | false =>
            simp only [hr, Bool.false_eq_true, if_false] at hok
            cases hok
          | true =>
            simp only [hr, if_true] at hok ⊢
            have hfree1 : fsLookup ((joinDest dst mp f.relPath, f.content) :: fs) dp = none := by
              rw [fsLookup_cons, if_neg hjd]; exact hfree
            refine ih _ (acc + 1) hfree1 ?_
              (fun g hg hgs hgd => huniq g (List.mem_cons_of_mem f hg) hgs hgd) hok
            rcases hmem with ⟨g, hg, hgs, hgd⟩
            cases List.mem_cons.mp hg with
            | inl h => subst h; exact absurd hgd hjd
            | inr h => exact ⟨g, h, hgs, hgd⟩

/-! Section: Unfolding equations for the phases of deployTheme -/

theorem deployThemeWebLayer_none {dst : String} {job : DeployJob} {src : ThemeJobSrc} {fs : FS}
    (hweb : src.themeWeb = none) :
    deployThemeWebLayer dst job src fs = deployLibLayer dst job src fs 0 := by
  unfold deployThemeWebLayer; rw [hweb]

theorem deployThemeWebLayer_some_ok {dst : String} {job : DeployJob} {src : ThemeJobSrc}
    {fs fs1 : FS} {files : List SrcFile} {n : Nat}
    (hweb : src.themeWeb = some files)
    (hq : copyDirectory files dst fs = (fs1, n, none)) :
    deployThemeWebLayer dst job src fs = deployLibLayer dst job src fs1 n := by
  simp only [deployThemeWebLayer, hweb, hq]

theorem deployThemeWebLayer_some_err {dst : String} {job : DeployJob} {src : ThemeJobSrc}
    {fs fs1 : FS} {files : List SrcFile} {n : Nat} {e : String}
    (hweb : src.themeWeb = some files)
    (hq : copyDirectory files dst fs = (fs1, n, some e)) :
    deployThemeWebLayer dst job src fs = (fs1, 0, some ("failed to copy theme directory: " ++ e)) := by
  simp only [deployThemeWebLayer, hweb, hq]

theorem deployLibLayer_none {dst : String} {job : DeployJob} {src : ThemeJobSrc} {fs : FS}
    {acc : Nat} (hlib : src.lib = none) :
    deployLibLayer dst job src fs acc = deployExtLayers dst job src fs acc := by
  unfold deployLibLayer; rw [hlib]

theorem deployLibLayer_some_ok {dst : String} {job : DeployJob} {src : ThemeJobSrc}
    {fs fs1 : FS} {files : List SrcFile} {n acc : Nat}
    (hlib : src.lib = some files)
    (hq : copyDirectory files dst fs = (fs1, n, none)) :
    deployLibLayer dst job src fs acc = deployExtLayers dst job src fs1 (acc + n) := by
  simp only [deployLibLayer, hlib, hq]

theorem deployLibLayer_some_err {dst : String} {job : DeployJob} {src : ThemeJobSrc}
    {fs fs1 : FS} {files : List SrcFile} {n acc : Nat} {e : String}
    (hlib : src.lib = some files)
    (hq : copyDirectory files dst fs = (fs1, n, some e)) :
    deployLibLayer dst job src fs acc = (fs1, 0, some ("failed to copy library files: " ++ e)) := by
  simp only [deployLibLayer, hlib, hq]

theorem deployExtLayers_eq {dst : String} {job : DeployJob} {src : ThemeJobSrc}
    {fs fs1 : FS} {acc total : Nat}
    (h : deployPackages dst src.packages fs acc = (fs1, total)) :
    deployExtLayers dst job src fs acc =
      if total = 0 then (fs1, 0, some (notFoundMsg job)) else (fs1, total, none) := by
  unfold deployExtLayers; rw [h]

theorem deployTheme_guards_ok {root v : String} {job : DeployJob} {src : ThemeJobSrc} {fs : FS}
    (hname : (splitOnChar '/' job.Theme.data).length = 2) (hmk : src.mkdirOk = true) :
    deployTheme root job v src fs = deployThemeWebLayer (destDirOf root job) job src fs := by
  unfold deployTheme
  rw [if_neg (by simp [hname]), if_neg (by simp [hmk])]

/-- Claim C1: in a deployment where the deployed (child) theme's own web layer
provides a relative asset path `p` (every provider of that destination path
within the layer carrying the child's bytes `c` and readable), the
destination path is initially free, and the theme layer copies without
error, then after the whole job completes the destination file at `p` holds
exactly the child theme's bytes `c` — never a later layer's
(parent/library/extension) version, because every later layer copies a file
only where the destination path is still free. -/
theorem child_theme_asset_precedence (root v : String) (job : DeployJob) (src : ThemeJobSrc)
    (fs : FS) (files : List SrcFile) (p c : String)
    (hname : (splitOnChar '/' job.Theme.data).length = 2)
    (hmk : src.mkdirOk = true)
    (hweb : src.themeWeb = some files)
    (hmem : ∃ f ∈ files, shouldSkipFile f.relPath = false ∧ f.relPath = p)
    (huniq : ∀ f ∈ files, shouldSkipFile f.relPath = false →
        joinDest (destDirOf root job) "" f.relPath = joinDest (destDirOf root job) "" p →
        f.content = c ∧ f.readable = true)
    (hfree : fsLookup fs (joinDest (destDirOf root job) "" p) = none)
    (hok : (copyDirectory files (destDirOf root job) fs).2.2 = none) :
    fsLookup (deployTheme root job v src fs).1 (joinDest (destDirOf root job) "" p) = some c := by
  rw [deployTheme_guards_ok hname hmk]
  rcases hq : copyDirectory files (destDirOf root job) fs with ⟨fs1, n, e⟩
  rw [hq] at hok
  cases e with
  | some e => simp at hok
  | none =>
    rw [deployThemeWebLayer_some_ok hweb hq]
    have hhit : fsLookup fs1 (joinDest (destDirOf root job) "" p) = some c := by
      have hmem2 : ∃ f ∈ files, shouldSkipFile f.relPath = false ∧
          joinDest (destDirOf root job) "" f.relPath = joinDest (destDirOf root job) "" p := by
        rcases hmem with ⟨f, hf, hfs, hfp⟩
        exact ⟨f, hf, hfs, by rw [hfp]⟩
      have hh := copyDirGo_hits (destDirOf root job) "" files fs 0
        (joinDest (destDirOf root job) "" p) c hfree hmem2 huniq
        (by rw [show copyDirGo (destDirOf root job) "" files fs 0 =
              copyDirectory files (destDirOf root job) fs from rfl, hq])
      rw [show copyDirGo (destDirOf root job) "" files fs 0 =
            copyDirectory files (destDirOf root job) fs from rfl, hq] at hh
      exact hh
    exact deployLibLayer_pres (destDirOf root job) job src fs1 n _ c hhit

/-- Witness for C1: the child theme provides `css/app.css` with bytes
"child", the shared library layer provides the same relative path with bytes
"parent"; after the job the destination holds the child's bytes. -/
theorem child_theme_asset_precedence_witness :
    fsLookup (deployTheme "." ⟨"en_US", "Vendor/Hyva", "frontend"⟩ "v"
        ⟨true, some [⟨"css/app.css", "child", true⟩],
          some [⟨"css/app.css", "parent", true⟩], []⟩ []).1
      (joinDest (destDirOf "." ⟨"en_US", "Vendor/Hyva", "frontend"⟩) "" "css/app.css") =
      some "child" :=
  child_theme_asset_precedence "." "v" ⟨"en_US", "Vendor/Hyva", "frontend"⟩
    ⟨true, some [⟨"css/app.css", "child", true⟩], some [⟨"css/app.css", "parent", true⟩], []⟩
    [] [⟨"css/app.css", "child", true⟩] "css/app.css" "child"
    (by decide) rfl rfl (by decide) (by decide) rfl rfl

/-! Section: Error results carry a zero count -/

theorem deployExtLayers_err_count {dst : String} {job : DeployJob} {src : ThemeJobSrc}
    {fs fs1 : FS} {acc n : Nat} {e : String}
    (h : deployExtLayers dst job src fs acc = (fs1, n, some e)) : n = 0 := by
  rcases hp : deployPackages dst src.packages fs acc with ⟨fs2, total⟩
  rw [deployExtLayers_eq hp] at h
  by_cases ht : total = 0
  · rw [if_pos ht] at h
    simp only [Prod.mk.injEq] at h
    exact h.2.1.symm
  · rw [if_neg ht] at h
    simp only [Prod.mk.injEq] at h
    cases h.2.2

theorem deployLibLayer_err_count {dst : String} {job : DeployJob} {src : ThemeJobSrc}
    {fs fs1 : FS} {acc n : Nat} {e : String}
    (h : deployLibLayer dst job src fs acc = (fs1, n, some e)) : n = 0 := by
  cases hlib : src.lib with
  | none =>
    rw [deployLibLayer_none hlib] at h
    exact deployExtLayers_err_count h
  | some files =>
    rcases hq : copyDirectory files dst fs with ⟨fs2, n2, e2⟩
    cases e2 with
    | none =>
      rw [deployLibLayer_some_ok hlib hq] at h
      exact deployExtLayers_err_count h
    | some e2 =>
      rw [deployLibLayer_some_err hlib hq] at h
      simp only [Prod.mk.injEq] at h
      exact h.2.1.symm

theorem deployThemeWebLayer_err_count {dst : String} {job : DeployJob} {src : ThemeJobSrc}
    {fs fs1 : FS} {n : Nat} {e : String}
    (h : deployThemeWebLayer dst job src fs = (fs1, n, some e)) : n = 0 := by
  cases hweb : src.themeWeb with
  | none =>
    rw [deployThemeWebLayer_none hweb] at h
    exact deployLibLayer_err_count h
  | some files =>
    rcases hq : copyDirectory files dst fs with ⟨fs2, n2, e2⟩
    cases e2 with
    | none =>
      rw [deployThemeWebLayer_some_ok hweb hq] at h
      exact deployLibLayer_err_count h
    | some e2 =>
      rw [deployThemeWebLayer_some_err hweb hq] at h
      simp only [Prod.mk.injEq] at h
      exact h.2.1.symm

theorem deployTheme_err_count {root v : String} {job : DeployJob} {src : ThemeJobSrc}
    {fs fs1 : FS} {n : Nat} {e : String}
    (h : deployTheme root job v src fs = (fs1, n, some e)) : n = 0 := by
  by_cases hname : (splitOnChar '/' job.Theme.data).length = 2
  · by_cases hmk : src.mkdirOk = true
    · rw [deployTheme_guards_ok hname hmk] at h
      exact deployThemeWebLayer_err_count h
    · unfold deployTheme at h
      rw [if_neg (by simp [hname])] at h
      rw [if_pos (by simpa using hmk)] at h
      simp only [Prod.mk.injEq] at h
      exact h.2.1.symm
  · unfold deployTheme at h
    rw [if_pos (by simpa using hname)] at h
    simp only [Prod.mk.injEq] at h
    exact h.2.1.symm

/-- Claim C10: every error return of `deployTheme` carries file count 0 (even
when files had already been placed before the failure), and consequently a
`DeployResult` never has both a non-empty `Error` and a positive
`FilesCount`. -/
theorem error_result_zero_count :
    (∀ (root v : String) (job : DeployJob) (src : ThemeJobSrc) (fs : FS),
      ((deployTheme root job v src fs).2.2).isSome = true →
      (deployTheme root job v src fs).2.1 = 0) ∧
    (∀ (root v : String) (job : DeployJob) (src : ThemeJobSrc) (fs : FS),
      (workerProcess root job v src fs).1.Error ≠ "" →
      (workerProcess root job v src fs).1.FilesCount = 0) := by
  constructor
  · intro root v job src fs h
    rcases hq : deployTheme root job v src fs with ⟨fs1, n, e⟩
    cases e with
    | none => rw [hq] at h; exact Bool.noConfusion h
    | some e => exact deployTheme_err_count hq
  · intro root v job src fs
    rcases hq : deployTheme root job v src fs with ⟨fs1, n, e⟩
    cases e with
    | none =>
      simp only [workerProcess, hq]
      intro h
      exact absurd rfl h
    | some e =>
      have hn : n = 0 := deployTheme_err_count hq
      simp only [workerProcess, hq]
      by_cases hc : strContains e "theme directory not found"
      · simp only [hc, if_true]
        intro h
        exact absurd rfl h
      · simp only [hc, if_false]
        intro h
        simpa using hn

/-- Witness for C10: the theme layer places `a.css`, then fails on the
unreadable `b.css`; the job errors and the returned count is 0 even though
one file was placed. -/
theorem error_result_zero_count_witness :
    ((deployTheme "." ⟨"en_US", "Vendor/Hyva", "frontend"⟩ "v"
        ⟨true, some [⟨"a.css", "x", true⟩, ⟨"b.css", "y", false⟩], none, []⟩ []).2.2).isSome = true ∧
    (deployTheme "." ⟨"en_US", "Vendor/Hyva", "frontend"⟩ "v"
        ⟨true, some [⟨"a.css", "x", true⟩, ⟨"b.css", "y", false⟩], none, []⟩ []).2.1 = 0 :=
  ⟨by decide,
    error_result_zero_count.1 "." "v" ⟨"en_US", "Vendor/Hyva", "frontend"⟩
      ⟨true, some [⟨"a.css", "x", true⟩, ⟨"b.css", "y", false⟩], none, []⟩ [] (by decide)⟩

/-! Section: the theme-directory-not-found outcome -/

theorem isPrefixOf_append_self (l t : List Char) : l.isPrefixOf (l ++ t) = true := by
  induction l with
  | nil => simp [List.isPrefixOf]
  | cons a as ih => simp [List.isPrefixOf, ih]

theorem listContainsSub_of_isPrefixOf {pat l : List Char} (h : pat.isPrefixOf l = true) :
    listContainsSub pat l = true := by
  cases l with
  | nil => simpa [listContainsSub] using h
  | cons x xs => simp [listContainsSub, h]

theorem strContains_append_right (a b : String) : strContains (a ++ b) a = true := by
  unfold strContains
  apply listContainsSub_of_isPrefixOf
  rw [String.data_append]
  exact isPrefixOf_append_self _ _

theorem strContains_notFoundMsg (job : DeployJob) :
    strContains (notFoundMsg job) "theme directory not found" = true := by
  have hd : notFoundMsg job =
      "theme directory not found" ++ (" for " ++ (job.Area ++ ("/" ++ job.Theme))) := by
    unfold notFoundMsg
    calc (("theme directory not found for " ++ job.Area) ++ "/") ++ job.Theme
        = "theme directory not found for " ++ (job.Area ++ ("/" ++ job.Theme)) := by
          rw [String.append_assoc, String.append_assoc]
      _ = ("theme directory not found" ++ " for ") ++ (job.Area ++ ("/" ++ job.Theme)) := by
          rw [show ("theme directory not found for " : String) =
                "theme directory not found" ++ " for " from rfl]
      _ = "theme directory not found" ++ (" for " ++ (job.Area ++ ("/" ++ job.Theme))) := by
          rw [String.append_assoc]
  rw [hd]
  exact strContains_append_right _ _

/-- Claim C3: a job that places zero files across all layers gets the
non-fatal "theme not found" outcome: `deployTheme` returns count 0 with the
not-found message, the worker converts it into a `DeployResult` with empty
`Error` and `FilesCount` 0 (contributing 0 to any total), and such a result
never sets the overall failure signal computed by `main`. -/
theorem zero_files_nonfatal_notfound :
    (∀ (dst : String) (job : DeployJob) (src : ThemeJobSrc) (fs fs1 : FS) (acc : Nat),
      deployPackages dst src.packages fs acc = (fs1, 0) →
      deployExtLayers dst job src fs acc = (fs1, 0, some (notFoundMsg job))) ∧
    (∀ (root v : String) (job : DeployJob) (src : ThemeJobSrc) (fs fs1 : FS),
      deployTheme root job v src fs = (fs1, 0, some (notFoundMsg job)) →
      (workerProcess root job v src fs).1 = ⟨job, 0, ""⟩ ∧
      hasErrors [(workerProcess root job v src fs).1] = false) := by
  constructor
  · intro dst job src fs fs1 acc h
    rw [deployExtLayers_eq h, if_pos rfl]
  · intro root v job src fs fs1 hq
    have hres : (workerProcess root job v src fs).1 = ⟨job, 0, ""⟩ := by
      simp only [workerProcess, hq, strContains_notFoundMsg, if_true]
    refine ⟨hres, ?_⟩
    rw [hres]
    simp [hasErrors]

/-- Witness for C3: a job whose source layers are all absent places zero
files; its result is the skipped outcome with no error and count 0, and it
does not trigger the failure signal. -/
theorem zero_files_nonfatal_notfound_witness :
    deployExtLayers "d" ⟨"en_US", "Vendor/Hyva", "frontend"⟩ ⟨true, none, none, []⟩ [] 0 =
      ([], 0, some (notFoundMsg ⟨"en_US", "Vendor/Hyva", "frontend"⟩)) ∧
    (workerProcess "." ⟨"en_US", "Vendor/Hyva", "frontend"⟩ "v" ⟨true, none, none, []⟩ []).1 =
      ⟨⟨"en_US", "Vendor/Hyva", "frontend"⟩, 0, ""⟩ ∧
    hasErrors [(workerProcess "." ⟨"en_US", "Vendor/Hyva", "frontend"⟩ "v"
      ⟨true, none, none, []⟩ []).1] = false :=
  ⟨zero_files_nonfatal_notfound.1 "d" ⟨"en_US", "Vendor/Hyva", "frontend"⟩
      ⟨true, none, none, []⟩ [] [] 0 rfl,
    zero_files_nonfatal_notfound.2 "." "v" ⟨"en_US", "Vendor/Hyva", "frontend"⟩
      ⟨true, none, none, []⟩ [] [] rfl⟩

/-! Section: Job creation and result slots -/

theorem workerProcess_job (root v : String) (job : DeployJob) (src : ThemeJobSrc) (fs : FS) :
    (workerProcess root job v src fs).1.Job = job := by
  rcases hq : deployTheme root job v src fs with ⟨fs1, n, e⟩
  cases e with
  | none => simp [workerProcess, hq]
  | some e =>
    simp only [workerProcess, hq]
    by_cases hc : strContains e "theme directory not found" <;> simp [hc]

theorem themeAreaJobs_length (l : String) (T A : List String) :
    (T.flatMap fun t => A.map fun a => (⟨l, t, a⟩ : DeployJob)).length =
      T.length * A.length := by
  induction T with
  | nil => simp
  | cons t ts ih =>
    simp only [List.flatMap_cons, List.length_append, ih, List.length_map, List.length_cons]
    ring

theorem createDeployJobs_length (L T A : List String) :
    (createDeployJobs L T A).length = L.length * T.length * A.length := by
  unfold createDeployJobs
  induction L with
  | nil => simp
  | cons l ls ih =>
    simp only [List.flatMap_cons, List.length_append, ih, themeAreaJobs_length,
      List.length_cons]
    ring

theorem createDeployJobs_mem (L T A : List String) (l t a : String) :
    (⟨l, t, a⟩ : DeployJob) ∈ createDeployJobs L T A ↔ l ∈ L ∧ t ∈ T ∧ a ∈ A := by
  simp only [createDeployJobs, List.mem_flatMap, List.mem_map, DeployJob.mk.injEq]
  aesop

theorem processJobs_get (root v : String) (srcOf : DeployJob → ThemeJobSrc) (fs : FS)
    (jobs : List DeployJob) (i : Nat)
    (h1 : i < jobs.length) (h2 : i < (processJobs root jobs v srcOf fs).length) :
    ((processJobs root jobs v srcOf fs).get ⟨i, h2⟩).Job = jobs.get ⟨i, h1⟩ := by
  simp only [processJobs, List.get_eq_getElem, List.getElem_map]
  exact workerProcess_job root v _ _ fs

/-- Claim C7: the job list is exactly the cartesian product of locales, themes
and areas (with the product cardinality), and the pre-sized results list has
one slot per job, slot `i` holding the result produced for job `i`. -/
theorem job_matrix_and_slots (root v : String) (srcOf : DeployJob → ThemeJobSrc) (fs : FS)
    (L T A : List String) :
    (createDeployJobs L T A).length = L.length * T.length * A.length ∧
    (∀ l t a, (⟨l, t, a⟩ : DeployJob) ∈ createDeployJobs L T A ↔ (l ∈ L ∧ t ∈ T ∧ a ∈ A)) ∧
    (processJobs root (createDeployJobs L T A) v srcOf fs).length =
      (createDeployJobs L T A).length ∧
    (∀ (i : Nat) (h1 : i < (createDeployJobs L T A).length)
        (h2 : i < (processJobs root (createDeployJobs L T A) v srcOf fs).length),
      ((processJobs root (createDeployJobs L T A) v srcOf fs).get ⟨i, h2⟩).Job =
        (createDeployJobs L T A).get ⟨i, h1⟩) :=
  ⟨createDeployJobs_length L T A,
   fun l t a => createDeployJobs_mem L T A l t a,
   by simp [processJobs],
   fun i h1 h2 => processJobs_get root v srcOf fs (createDeployJobs L T A) i h1 h2⟩

/-- Witness for C7 at a concrete run: 2 locales x 1 theme x 1 area gives 2
jobs, membership matches the product, and slot 1 holds the result of job 1. -/
theorem job_matrix_and_slots_witness :
    (createDeployJobs ["en_US", "de_DE"] ["Vendor/Hyva"] ["frontend"]).length = 2 * 1 * 1 ∧
    ((⟨"de_DE", "Vendor/Hyva", "frontend"⟩ : DeployJob) ∈
        createDeployJobs ["en_US", "de_DE"] ["Vendor/Hyva"] ["frontend"] ↔
      ("de_DE" ∈ ["en_US", "de_DE"] ∧ "Vendor/Hyva" ∈ ["Vendor/Hyva"] ∧
        "frontend" ∈ ["frontend"])) ∧
    ((processJobs "." (createDeployJobs ["en_US", "de_DE"] ["Vendor/Hyva"] ["frontend"]) "v"
        (fun _ => ⟨true, none, none, []⟩) []).get ⟨1, by decide⟩).Job =
      (createDeployJobs ["en_US", "de_DE"] ["Vendor/Hyva"] ["frontend"]).get ⟨1, by decide⟩ :=
  ⟨(job_matrix_and_slots "." "v" (fun _ => ⟨true, none, none, []⟩) []
      ["en_US", "de_DE"] ["Vendor/Hyva"] ["frontend"]).1,
   (job_matrix_and_slots "." "v" (fun _ => ⟨true, none, none, []⟩) []
      ["en_US", "de_DE"] ["Vendor/Hyva"] ["frontend"]).2.1 "de_DE" "Vendor/Hyva" "frontend",
   (job_matrix_and_slots "." "v" (fun _ => ⟨true, none, none, []⟩) []
      ["en_US", "de_DE"] ["Vendor/Hyva"] ["frontend"]).2.2.2 1 (by decide) (by decide)⟩

/-- Claim C8: the deployment-version marker (the content of
`pub/static/deployed_version.txt`, second component of `deployStatic`) is
written if and only if the total file count over all job results is
positive, and when written it contains exactly the content-version string of
the run; when zero files were placed in total, no marker is written. -/
theorem version_marker_iff_files_placed (root v : String) (L T A : List String)
    (srcOf : DeployJob → ThemeJobSrc) (fs : FS) :
    ((deployStatic root L T A v srcOf fs).2 = some v ↔
      0 < (((deployStatic root L T A v srcOf fs).1).map fun r => r.FilesCount).sum) ∧
    ((deployStatic root L T A v srcOf fs).2 = none ↔
      (((deployStatic root L T A v srcOf fs).1).map fun r => r.FilesCount).sum = 0) := by
  have key : deployStatic root L T A v srcOf fs =
      (processJobs root (createDeployJobs L T A) v srcOf fs,
        if ((processJobs root (createDeployJobs L T A) v srcOf fs).map
              fun r => r.FilesCount).sum > 0
        then some v else none) := rfl
  rw [key]
  set s := ((processJobs root (createDeployJobs L T A) v srcOf fs).map
      fun r => r.FilesCount).sum with hs
  by_cases h : s > 0
  · rw [if_pos h]
    refine ⟨⟨fun _ => h, fun _ => rfl⟩, ⟨fun hc => Option.noConfusion hc, fun h0 => ?_⟩⟩
    omega
  · rw [if_neg h]
    refine ⟨⟨fun hc => Option.noConfusion hc, fun hpos => absurd hpos h⟩,
      ⟨fun _ => ?_, fun _ => rfl⟩⟩
    omega

/-- Counterexample for C6: the code has no locale-level symlink mode at all.
Requesting three locales for one (theme, area) produces three real jobs, and
the `de_DE`/`fr_FR` results are ordinary full deployment results with their
own file counts (the `DeployResult` type carries no `symlinked` or
`symlinkTarget` data), contradicting the claim that only the first-seen
locale runs as a real job and the rest become symlink results. -/
theorem locale_symlink_mode_counterexample :
    createDeployJobs ["en_US", "de_DE", "fr_FR"] ["Vendor/Demo"] ["frontend"] =
      [⟨"en_US", "Vendor/Demo", "frontend"⟩, ⟨"de_DE", "Vendor/Demo", "frontend"⟩,
       ⟨"fr_FR", "Vendor/Demo", "frontend"⟩] ∧
    processJobs "." (createDeployJobs ["en_US", "de_DE", "fr_FR"] ["Vendor/Demo"] ["frontend"])
        "v" (fun _ => ⟨true, some [⟨"css/app.css", "x", true⟩], none, []⟩) [] =
      [⟨⟨"en_US", "Vendor/Demo", "frontend"⟩, 1, ""⟩,
       ⟨⟨"de_DE", "Vendor/Demo", "frontend"⟩, 1, ""⟩,
       ⟨⟨"fr_FR", "Vendor/Demo", "frontend"⟩, 1, ""⟩] :=
  ⟨rfl, rfl⟩

/-- Claim C6 (amended): there is no locale-level symlink reduction: every
requested locale of every (theme, area) pair runs as its own real job, and
the results list has exactly one ordinary result per job. -/
theorem every_locale_real_job (root v : String) (srcOf : DeployJob → ThemeJobSrc) (fs : FS)
    (L T A : List String) (l t a : String) (hl : l ∈ L) (ht : t ∈ T) (ha : a ∈ A) :
    (⟨l, t, a⟩ : DeployJob) ∈ createDeployJobs L T A ∧
    (processJobs root (createDeployJobs L T A) v srcOf fs).length =
      (createDeployJobs L T A).length :=
  ⟨(createDeployJobs_mem L T A l t a).mpr ⟨hl, ht, ha⟩, by simp [processJobs]⟩

/-- Witness for the amended C6 at a concrete locale list. -/
theorem every_locale_real_job_witness :
    (⟨"de_DE", "Vendor/Demo", "frontend"⟩ : DeployJob) ∈
      createDeployJobs ["en_US", "de_DE"] ["Vendor/Demo"] ["frontend"] ∧
    (processJobs "." (createDeployJobs ["en_US", "de_DE"] ["Vendor/Demo"] ["frontend"]) "v"
        (fun _ => ⟨true, none, none, []⟩) []).length =
      (createDeployJobs ["en_US", "de_DE"] ["Vendor/Demo"] ["frontend"]).length :=
  every_locale_real_job "." "v" (fun _ => ⟨true, none, none, []⟩) []
    ["en_US", "de_DE"] ["Vendor/Demo"] ["frontend"] "de_DE" "Vendor/Demo" "frontend"
    (by decide) (by decide) (by decide)

/-! Section: Provenance of newly placed files -/

theorem copyDirGo_new (dst mp : String) (files : List SrcFile) (fs : FS) (acc : Nat)
    (dp c : String)
    (h : fsLookup (copyDirGo dst mp files fs acc).1 dp = some c) :
    fsLookup fs dp = some c ∨
    ∃ f ∈ files, shouldSkipFile f.relPath = false ∧ joinDest dst mp f.relPath = dp ∧
      f.content = c := by
  induction files generalizing fs acc with
  | nil => exact Or.inl h
  | cons f rest ih =>
    rw [copyDirGo] at h
    by_cases hsk : shouldSkipFile f.relPath
    · simp only [hsk, if_true] at h
      rcases ih fs acc h with h1 | ⟨g, hg, h2⟩
      · exact Or.inl h1
      · exact Or.inr ⟨g, List.mem_cons_of_mem f hg, h2⟩
    · simp only [Bool.not_eq_true] at hsk
      simp only [hsk, Bool.false_eq_true, if_false] at h
      cases hl : fsLookup fs (joinDest dst mp f.relPath) with
      | some v =>
        simp only [hl] at h
        rcases ih fs acc h with h1 | ⟨g, hg, h2⟩
        · exact Or.inl h1
        · exact Or.inr ⟨g, List.mem_cons_of_mem f hg, h2⟩
      | none =>
        simp only [hl] at h
        cases hr : f.readable with
        | true =>
          simp only [hr, if_true] at h
          rcases ih _ (acc + 1) h with h1 | ⟨g, hg, h2⟩
          · rw [fsLookup_cons] at h1
            by_cases hjd : joinDest dst mp f.relPath = dp
            · rw [if_pos hjd] at h1
              exact Or.inr ⟨f, List.mem_cons_self f rest, hsk, hjd, Option.some.inj h1⟩
            · rw [if_neg hjd] at h1
              exact Or.inl h1
          · exact Or.inr ⟨g, List.mem_cons_of_mem f hg, h2⟩
        | false =>
          simp only [hr, Bool.false_eq_true, if_false] at h
          exact Or.inl h

/-- Claim C9: every file a per-package view-directory block newly places lands
under a subdirectory named by the package's resolved module name, except
that a module name of `Magento_Email` or an empty module name (missing or
unparsable module.xml) places the file directly under the destination root
with no namespace prefix. -/
theorem extension_module_namespacing (dir : List SrcFile) (m dst : String) (fs : FS)
    (acc : Nat) (dp c : String)
    (h : fsLookup (pkgDirStep (some dir) m dst fs acc).1 dp = some c) :
    fsLookup fs dp = some c ∨
    ∃ f ∈ dir, shouldSkipFile f.relPath = false ∧ f.content = c ∧
      ((m ≠ "Magento_Email" ∧ m ≠ "" ∧ dp = dst ++ "/" ++ m ++ "/" ++ f.relPath) ∨
       ((m = "Magento_Email" ∨ m = "") ∧ dp = dst ++ "/" ++ f.relPath)) := by
  have hfs : (pkgDirStep (some dir) m dst fs acc).1 =
      (if m = "Magento_Email" then copyDirectory dir dst fs
       else copyDirectoryWithModule dir dst m fs).1 := by
    unfold pkgDirStep
    split
    next heq => cases heq
    next e heq =>
      have he := Option.some.inj heq
      subst he
      split
      next fs1 n heq2 => rw [heq2]
      next fs1 n err heq2 => rw [heq2]
  rw [hfs] at h
  by_cases hm : m = "Magento_Email"
  · rw [if_pos hm] at h
    rcases copyDirGo_new dst "" dir fs 0 dp c h with h1 | ⟨f, hf, hsk, hjd, hc⟩
    · exact Or.inl h1
    · refine Or.inr ⟨f, hf, hsk, hc, Or.inr ⟨Or.inl hm, ?_⟩⟩
      rw [← hjd]
      simp [joinDest]
  · rw [if_neg hm] at h
    rcases copyDirGo_new dst m dir fs 0 dp c h with h1 | ⟨f, hf, hsk, hjd, hc⟩
    · exact Or.inl h1
    · by_cases he : m = ""
      · refine Or.inr ⟨f, hf, hsk, hc, Or.inr ⟨Or.inr he, ?_⟩⟩
        rw [← hjd, he]
        simp [joinDest]
      · refine Or.inr ⟨f, hf, hsk, hc, Or.inl ⟨hm, he, ?_⟩⟩
        rw [← hjd]
        simp [joinDest, he]

/-- Witness for C9: a `Vendor_Module` package file `js/x.js` lands at
`<dest>/Vendor_Module/js/x.js`. -/
theorem extension_module_namespacing_witness :
    fsLookup [] "d/Vendor_Module/js/x.js" = some "X" ∨
    ∃ f ∈ [(⟨"js/x.js", "X", true⟩ : SrcFile)], shouldSkipFile f.relPath = false ∧
      f.content = "X" ∧
      (("Vendor_Module" ≠ "Magento_Email" ∧ "Vendor_Module" ≠ "" ∧
          "d/Vendor_Module/js/x.js" = "d" ++ "/" ++ "Vendor_Module" ++ "/" ++ f.relPath) ∨
       (("Vendor_Module" = "Magento_Email" ∨ "Vendor_Module" = "") ∧
          "d/Vendor_Module/js/x.js" = "d" ++ "/" ++ f.relPath)) :=
  extension_module_namespacing [⟨"js/x.js", "X", true⟩] "Vendor_Module" "d" [] 0
    "d/Vendor_Module/js/x.js" "X" (by decide)

/-- Counterexample for C5: `shouldSkipFile` does not exclude `.DS_Store`,
`*.less` sources or `node_modules` paths; a theme layer containing all three
deploys all three into the destination tree. -/
theorem exclusion_counterexample :
    shouldSkipFile ".DS_Store" = false ∧
    shouldSkipFile "css/styles.less" = false ∧
    shouldSkipFile "node_modules/a.js" = false ∧
    (deployTheme "." ⟨"en_US", "Vendor/Hyva", "frontend"⟩ "v"
        ⟨true, some [⟨".DS_Store", "ds", true⟩, ⟨"css/styles.less", "ls", true⟩,
          ⟨"node_modules/a.js", "nm", true⟩], none, []⟩ []).1 =
      [("./pub/static/frontend/Vendor/Hyva/en_US/node_modules/a.js", "nm"),
       ("./pub/static/frontend/Vendor/Hyva/en_US/css/styles.less", "ls"),
       ("./pub/static/frontend/Vendor/Hyva/en_US/.DS_Store", "ds")] :=
  ⟨rfl, rfl, rfl, rfl⟩

/-- Claim C5 (amended): the only exclusions applied during placement are paths
containing a `/docs/` (or `\docs\`) segment and paths starting with
`tailwind/` (or `tailwind\`): every entry a layer copy adds to the
destination comes from a source file passing exactly those four checks
(in particular `.DS_Store`, `*.less` and `node_modules` paths are eligible
and are placed like any other file). -/
theorem exclusion_filter_amended (files : List SrcFile) (dst mp : String) (fs : FS)
    (dp c : String)
    (h : fsLookup (copyDirectoryWithModule files dst mp fs).1 dp = some c) :
    fsLookup fs dp = some c ∨
    ∃ f ∈ files, strContains f.relPath "/docs/" = false ∧
      strContains f.relPath "\\docs\\" = false ∧
      strStartsWith f.relPath "tailwind/" = false ∧
      strStartsWith f.relPath "tailwind\\" = false ∧
      joinDest dst mp f.relPath = dp ∧ f.content = c := by
  rcases copyDirGo_new dst mp files fs 0 dp c h with h1 | ⟨f, hf, hsk, hjd, hc⟩
  · exact Or.inl h1
  · simp only [shouldSkipFile, Bool.or_eq_false_iff] at hsk
    exact Or.inr ⟨f, hf, hsk.1.1.1, hsk.1.1.2, hsk.1.2, hsk.2, hjd, hc⟩

/-- Witness for the amended C5: the `.DS_Store` entry placed by a layer copy
traces back to the (non-excluded) `.DS_Store` source file. -/
theorem exclusion_filter_amended_witness :
    fsLookup [] "d/.DS_Store" = some "ds" ∨
    ∃ f ∈ [(⟨".DS_Store", "ds", true⟩ : SrcFile)], strContains f.relPath "/docs/" = false ∧
      strContains f.relPath "\\docs\\" = false ∧
      strStartsWith f.relPath "tailwind/" = false ∧
      strStartsWith f.relPath "tailwind\\" = false ∧
      joinDest "d" "" f.relPath = "d/.DS_Store" ∧ f.content = "ds" :=
  exclusion_filter_amended [⟨".DS_Store", "ds", true⟩] "d" "" [] "d/.DS_Store" "ds" (by decide)

/-! Section: Readability and coverage predicates (for idempotence) -/

/-- All files of an optional source directory are readable. -/
def filesAllReadable : Option (List SrcFile) → Bool
  | none => true
  | some l => l.all fun f => f.readable

def subAllReadable (s : SubModuleSrc) : Bool :=
  filesAllReadable s.viewAreaWeb && filesAllReadable s.viewBaseWeb

def pkgAllReadable (p : PackageSrc) : Bool :=
  filesAllReadable p.viewAreaWeb && filesAllReadable p.srcViewAreaWeb &&
  filesAllReadable p.viewBaseWeb && filesAllReadable p.srcViewBaseWeb &&
  p.subModules.all subAllReadable

def srcAllReadable (s : ThemeJobSrc) : Bool :=
  filesAllReadable s.themeWeb && filesAllReadable s.lib && s.packages.all pkgAllReadable

/-- The effective module prefix of a per-package directory copy: empty for
`Magento_Email`, the module name otherwise. -/
def pkgPre (m : String) : String := if m = "Magento_Email" then "" else m

theorem pkgDirStep_copy_eq (dir : List SrcFile) (m dst : String) (fs : FS) :
    (if m = "Magento_Email" then copyDirectory dir dst fs
     else copyDirectoryWithModule dir dst m fs) =
      copyDirectoryWithModule dir dst (pkgPre m) fs := by
  by_cases hm : m = "Magento_Email" <;> simp [pkgPre, hm, copyDirectory]

/-- Every non-excluded file of the (optional) directory has an entry at its
destination path. -/
def filesCovered (dir : Option (List SrcFile)) (dst mp : String) (fs : FS) : Prop :=
  ∀ l, dir = some l → ∀ f ∈ l, shouldSkipFile f.relPath = false →
    (fsLookup fs (joinDest dst mp f.relPath)).isSome = true

def subCovered (dst : String) (s : SubModuleSrc) (fs : FS) : Prop :=
  filesCovered s.viewAreaWeb dst s.subModuleName fs ∧
  filesCovered s.viewBaseWeb dst s.subModuleName fs

def pkgCovered (dst : String) (p : PackageSrc) (fs : FS) : Prop :=
  filesCovered p.viewAreaWeb dst (pkgPre p.moduleName) fs ∧
  filesCovered p.srcViewAreaWeb dst (pkgPre p.moduleName) fs ∧
  filesCovered p.viewBaseWeb dst (pkgPre p.moduleName) fs ∧
  filesCovered p.srcViewBaseWeb dst (pkgPre p.moduleName) fs ∧
  ∀ s ∈ p.subModules, subCovered dst s fs

def srcCovered (dst : String) (src : ThemeJobSrc) (fs : FS) : Prop :=
  filesCovered src.themeWeb dst "" fs ∧ filesCovered src.lib dst "" fs ∧
  ∀ p ∈ src.packages, pkgCovered dst p fs

theorem fsPreserved_isSome {fs fs1 : FS} (hp : fsPreserved fs fs1) {dp : String}
    (h : (fsLookup fs dp).isSome = true) : (fsLookup fs1 dp).isSome = true := by
  rcases Option.isSome_iff_exists.mp h with ⟨c, hc⟩
  rw [hp dp c hc]
  rfl

theorem filesCovered_mono {dir : Option (List SrcFile)} {dst mp : String} {fs fs1 : FS}
    (hp : fsPreserved fs fs1) (h : filesCovered dir dst mp fs) :
    filesCovered dir dst mp fs1 :=
  fun l hl f hf hs => fsPreserved_isSome hp (h l hl f hf hs)

theorem subCovered_mono {dst : String} {s : SubModuleSrc} {fs fs1 : FS}
    (hp : fsPreserved fs fs1) (h : subCovered dst s fs) : subCovered dst s fs1 :=
  ⟨filesCovered_mono hp h.1, filesCovered_mono hp h.2⟩

theorem pkgCovered_mono {dst : String} {p : PackageSrc} {fs fs1 : FS}
    (hp : fsPreserved fs fs1) (h : pkgCovered dst p fs) : pkgCovered dst p fs1 :=
  ⟨filesCovered_mono hp h.1, filesCovered_mono hp h.2.1, filesCovered_mono hp h.2.2.1,
    filesCovered_mono hp h.2.2.2.1, fun s hs => subCovered_mono hp (h.2.2.2.2 s hs)⟩

theorem srcCovered_mono {dst : String} {src : ThemeJobSrc} {fs fs1 : FS}
    (hp : fsPreserved fs fs1) (h : srcCovered dst src fs) : srcCovered dst src fs1 :=
  ⟨filesCovered_mono hp h.1, filesCovered_mono hp h.2.1,
    fun p hp2 => pkgCovered_mono hp (h.2.2 p hp2)⟩

/-! Section: Readable layers copy without error and cover their files -/

theorem copyDirGo_noerr (dst mp : String) (files : List SrcFile) (fs : FS) (acc : Nat)
    (h : ∀ f ∈ files, f.readable = true) :
    (copyDirGo dst mp files fs acc).2.2 = none := by
  induction files generalizing fs acc with
  | nil => rfl
  | cons f rest ih =>
    rw [copyDirGo]
    by_cases hsk : shouldSkipFile f.relPath
    · simp only [hsk, if_true]
      exact ih fs acc fun g hg => h g (List.mem_cons_of_mem f hg)
    · simp only [Bool.not_eq_true] at hsk
      simp only [hsk, Bool.false_eq_true, if_false]
      cases hl : fsLookup fs (joinDest dst mp f.relPath) with
      | some v => exact ih fs acc fun g hg => h g (List.mem_cons_of_mem f hg)
      | none =>
        rw [h f (List.mem_cons_self f rest)]
        simp only [if_true]
        exact ih _ (acc + 1) fun g hg => h g (List.mem_cons_of_mem f hg)

theorem copyDirGo_covers (dst mp : String) (files : List SrcFile) (fs : FS) (acc : Nat)
    (h : ∀ f ∈ files, f.readable = true) :
    ∀ f ∈ files, shouldSkipFile f.relPath = false →
      (fsLookup (copyDirGo dst mp files fs acc).1 (joinDest dst mp f.relPath)).isSome = true := by
  induction files generalizing fs acc with
  | nil => intro f hf; cases hf
  | cons f rest ih =>
    intro g hg hgs
    rw [copyDirGo]
    by_cases hsk : shouldSkipFile f.relPath
    · simp only [hsk, if_true]
      cases List.mem_cons.mp hg with
      | inl he => subst he; rw [hgs] at hsk; cases hsk
      | inr hr => exact ih fs acc (fun x hx => h x (List.mem_cons_of_mem f hx)) g hr hgs
    · simp only [Bool.not_eq_true] at hsk
      simp only [hsk, Bool.false_eq_true, if_false]
      cases hl : fsLookup fs (joinDest dst mp f.relPath) with
      | some v =>
        cases List.mem_cons.mp hg with
        | inl he =>
          subst he
          exact fsPreserved_isSome (copyDirGo_pres dst mp rest fs acc) (by rw [hl]; rfl)
        | inr hr => exact ih fs acc (fun x hx => h x (List.mem_cons_of_mem f hx)) g hr hgs
      | none =>
        rw [h f (List.mem_cons_self f rest)]
        simp only [if_true]
        cases List.mem_cons.mp hg with
        | inl he =>
          subst he
          refine fsPreserved_isSome (copyDirGo_pres dst mp rest _ (acc + 1)) ?_
          rw [fsLookup_cons, if_pos rfl]
          rfl
        | inr hr => exact ih _ (acc + 1) (fun x hx => h x (List.mem_cons_of_mem f hx)) g hr hgs

/-- A layer all of whose non-excluded files already have destination entries
copies nothing: the filesystem is unchanged, no file is counted, no error. -/
theorem copyDirGo_stable (dst mp : String) (files : List SrcFile) (fs : FS) (acc : Nat)
    (h : ∀ f ∈ files, shouldSkipFile f.relPath = false →
      (fsLookup fs (joinDest dst mp f.relPath)).isSome = true) :
    copyDirGo dst mp files fs acc = (fs, acc, none) := by
  induction files generalizing acc with
  | nil => rfl
  | cons f rest ih =>
    rw [copyDirGo]
    by_cases hsk : shouldSkipFile f.relPath
    · simp only [hsk, if_true]
      exact ih acc fun g hg hgs => h g (List.mem_cons_of_mem f hg) hgs
    · simp only [Bool.not_eq_true] at hsk
      simp only [hsk, Bool.false_eq_true, if_false]
      rcases Option.isSome_iff_exists.mp (h f (List.mem_cons_self f rest) hsk) with ⟨v, hv⟩
      rw [hv]
      exact ih acc fun g hg hgs => h g (List.mem_cons_of_mem f hg) hgs

/-! Section: Unfolding equations for package steps -/

theorem pkgDirStep_none (m dst : String) (fs : FS) (acc : Nat) :
    pkgDirStep none m dst fs acc = (fs, acc, false) := rfl

theorem pkgDirStep_ok {dir : List SrcFile} {m dst : String} {fs fs1 : FS} {n : Nat}
    (acc : Nat) (hq : copyDirectoryWithModule dir dst (pkgPre m) fs = (fs1, n, none)) :
    pkgDirStep (some dir) m dst fs acc = (fs1, acc + n, false) := by
  simp only [pkgDirStep, pkgDirStep_copy_eq, hq]

theorem pkgDirStep_err {dir : List SrcFile} {m dst : String} {fs fs1 : FS} {n : Nat}
    {e : String} (acc : Nat)
    (hq : copyDirectoryWithModule dir dst (pkgPre m) fs = (fs1, n, some e)) :
    pkgDirStep (some dir) m dst fs acc = (fs1, acc, true) := by
  simp only [pkgDirStep, pkgDirStep_copy_eq, hq]

theorem subModuleBase_none {dst : String} {sub : SubModuleSrc} {fs : FS} {acc : Nat}
    (h : sub.viewBaseWeb = none) : subModuleBase dst sub fs acc = (fs, acc) := by
  simp only [subModuleBase, h]

theorem subModuleBase_ok {dst : String} {sub : SubModuleSrc} {fs fs1 : FS} {acc n : Nat}
    {files : List SrcFile} (h : sub.viewBaseWeb = some files)
    (hq : copyDirectoryWithModule files dst sub.subModuleName fs = (fs1, n, none)) :
    subModuleBase dst sub fs acc = (fs1, acc + n) := by
  simp only [subModuleBase, h, hq]

theorem subModuleBase_err {dst : String} {sub : SubModuleSrc} {fs fs1 : FS} {acc n : Nat}
    {e : String} {files : List SrcFile} (h : sub.viewBaseWeb = some files)
    (hq : copyDirectoryWithModule files dst sub.subModuleName fs = (fs1, n, some e)) :
    subModuleBase dst sub fs acc = (fs1, acc) := by
  simp only [subModuleBase, h, hq]

theorem subModuleStep_none {dst : String} {sub : SubModuleSrc} {fs : FS} {acc : Nat}
    (h : sub.viewAreaWeb = none) :
    subModuleStep dst sub fs acc = subModuleBase dst sub fs acc := by
  simp only [subModuleStep, h]

theorem subModuleStep_ok {dst : String} {sub : SubModuleSrc} {fs fs1 : FS} {acc n : Nat}
    {files : List SrcFile} (h : sub.viewAreaWeb = some files)
    (hq : copyDirectoryWithModule files dst sub.subModuleName fs = (fs1, n, none)) :
    subModuleStep dst sub fs acc = subModuleBase dst sub fs1 (acc + n) := by
  simp only [subModuleStep, h, hq]

theorem subModuleStep_err {dst : String} {sub : SubModuleSrc} {fs fs1 : FS} {acc n : Nat}
    {e : String} {files : List SrcFile} (h : sub.viewAreaWeb = some files)
    (hq : copyDirectoryWithModule files dst sub.subModuleName fs = (fs1, n, some e)) :
    subModuleStep dst sub fs acc = (fs1, acc) := by
  simp only [subModuleStep, h, hq]

/-! Section: Readable sources: every step covers its files -/

theorem filesAllReadable_some {l : List SrcFile} {dir : Option (List SrcFile)}
    (hd : dir = some l) (h : filesAllReadable dir = true) :
    ∀ f ∈ l, f.readable = true := by
  subst hd
  simpa [filesAllReadable, List.all_eq_true] using h

theorem copyModule_noerr {dir : List SrcFile} (dst mp : String) (fs : FS)
    (h : ∀ f ∈ dir, f.readable = true) :
    ∃ fs1 n, copyDirectoryWithModule dir dst mp fs = (fs1, n, none) := by
  rcases hq : copyDirectoryWithModule dir dst mp fs with ⟨fs1, n, e⟩
  have he := copyDirGo_noerr dst mp dir fs 0 h
  rw [show copyDirGo dst mp dir fs 0 = copyDirectoryWithModule dir dst mp fs from rfl, hq] at he
  simp only at he
  subst he
  exact ⟨fs1, n, rfl⟩

theorem filesCovered_none {dst mp : String} {fs : FS} {dir : Option (List SrcFile)}
    (h : dir = none) : filesCovered dir dst mp fs := by
  intro l hl
  rw [h] at hl
  cases hl

theorem filesCovered_of_copy {dir : Option (List SrcFile)} {files : List SrcFile}
    {dst mp : String} {fs fs1 : FS} {n : Nat}
    (hd : dir = some files)
    (hr : ∀ f ∈ files, f.readable = true)
    (hq : copyDirectoryWithModule files dst mp fs = (fs1, n, none)) :
    filesCovered dir dst mp fs1 := by
  intro l hl f hf hfs
  rw [hd] at hl
  have he : files = l := Option.some.inj hl
  subst he
  have hc := copyDirGo_covers dst mp files fs 0 hr f hf hfs
  rw [show copyDirGo dst mp files fs 0 = copyDirectoryWithModule files dst mp fs from rfl,
    hq] at hc
  exact hc

theorem pkgDirStep_readable (dir : Option (List SrcFile)) (m dst : String) (fs : FS)
    (acc : Nat) (h : filesAllReadable dir = true) :
    (pkgDirStep dir m dst fs acc).2.2 = false ∧
    filesCovered dir dst (pkgPre m) (pkgDirStep dir m dst fs acc).1 := by
  cases dir with
  | none => exact ⟨rfl, filesCovered_none rfl⟩
  | some files =>
    have hr := filesAllReadable_some rfl h
    rcases copyModule_noerr dst (pkgPre m) (fs) hr with ⟨fs1, n, hq⟩
    rw [pkgDirStep_ok acc hq]
    exact ⟨rfl, filesCovered_of_copy rfl hr hq⟩

theorem subModuleStep_readable (dst : String) (sub : SubModuleSrc) (fs : FS) (acc : Nat)
    (h : subAllReadable sub = true) :
    subCovered dst sub (subModuleStep dst sub fs acc).1 := by
  have h1 : filesAllReadable sub.viewAreaWeb = true := (Bool.and_eq_true_iff.mp h).1
  have h2 : filesAllReadable sub.viewBaseWeb = true := (Bool.and_eq_true_iff.mp h).2
  cases ha : sub.viewAreaWeb with
  | none =>
    rw [subModuleStep_none ha]
    cases hb : sub.viewBaseWeb with
    | none =>
      rw [subModuleBase_none hb]
      exact ⟨filesCovered_none ha, filesCovered_none hb⟩
    | some bfiles =>
      have hrb := filesAllReadable_some hb h2
      rcases copyModule_noerr dst (sub.subModuleName) (fs) hrb with
        ⟨fs1, n, hq⟩
      rw [subModuleBase_ok hb hq]
      exact ⟨filesCovered_none ha, filesCovered_of_copy hb hrb hq⟩
  | some afiles =>
    have hra := filesAllReadable_some ha h1
    rcases copyModule_noerr dst (sub.subModuleName) (fs) hra with
      ⟨fs1, n, hq⟩
    rw [subModuleStep_ok ha hq]
    have hcova : filesCovered sub.viewAreaWeb dst sub.subModuleName fs1 :=
      filesCovered_of_copy ha hra hq
    cases hb : sub.viewBaseWeb with
    | none =>
      rw [subModuleBase_none hb]
      exact ⟨hcova, filesCovered_none hb⟩
    | some bfiles =>
      have hrb := filesAllReadable_some hb h2
      rcases copyModule_noerr dst (sub.subModuleName) (fs1) hrb with
        ⟨fs2, n2, hq2⟩
      rw [subModuleBase_ok hb hq2]
      exact ⟨filesCovered_mono (copy_res_pres hq2) hcova, filesCovered_of_copy hb hrb hq2⟩

theorem deploySubModules_readable (dst : String) (subs : List SubModuleSrc) (fs : FS)
    (acc : Nat) (h : subs.all subAllReadable = true) :
    ∀ s ∈ subs, subCovered dst s (deploySubModules dst subs fs acc).1 := by
  induction subs generalizing fs acc with
  | nil => intro s hs; cases hs
  | cons sub rest ih =>
    have hall := List.all_eq_true.mp h
    intro s hs
    rcases hq : subModuleStep dst sub fs acc with ⟨fs1, acc1⟩
    have hred : deploySubModules dst (sub :: rest) fs acc =
        deploySubModules dst rest fs1 acc1 := by
      simp only [deploySubModules, hq]
    rw [hred]
    cases List.mem_cons.mp hs with
    | inl he =>
      subst he
      have hcov := subModuleStep_readable dst s fs acc (hall s (List.mem_cons_self s rest))
      rw [hq] at hcov
      exact subCovered_mono (deploySubModules_pres dst rest fs1 acc1) hcov
    | inr hr =>
      exact ih fs1 acc1
        (List.all_eq_true.mpr fun x hx => hall x (List.mem_cons_of_mem sub hx)) s hr

theorem deployPackage_readable (dst : String) (pkg : PackageSrc) (fs : FS)
    (h : pkgAllReadable pkg = true) :
    pkgCovered dst pkg (deployPackage dst pkg fs).1 := by
  simp only [pkgAllReadable, Bool.and_eq_true] at h
  obtain ⟨⟨⟨⟨h1, h2⟩, h3⟩, h4⟩, h5⟩ := h
  have hs1 := pkgDirStep_readable pkg.viewAreaWeb pkg.moduleName dst fs 0 h1
  rcases e1 : pkgDirStep pkg.viewAreaWeb pkg.moduleName dst fs 0 with ⟨fs1, a1, b1⟩
  rw [e1] at hs1
  have hb1 : b1 = false := hs1.1
  subst hb1
  have hc1 : filesCovered pkg.viewAreaWeb dst (pkgPre pkg.moduleName) fs1 := hs1.2
  have hs2 := pkgDirStep_readable pkg.srcViewAreaWeb pkg.moduleName dst fs1 a1 h2
  rcases e2 : pkgDirStep pkg.srcViewAreaWeb pkg.moduleName dst fs1 a1 with ⟨fs2, a2, b2⟩
  rw [e2] at hs2
  have hb2 : b2 = false := hs2.1
  subst hb2
  have hc2 : filesCovered pkg.srcViewAreaWeb dst (pkgPre pkg.moduleName) fs2 := hs2.2
  have hp2 : fsPreserved fs1 fs2 := by
    have := pkgDirStep_pres pkg.srcViewAreaWeb pkg.moduleName dst fs1 a1
    rw [e2] at this; exact this
  have hs3 := pkgDirStep_readable pkg.viewBaseWeb pkg.moduleName dst fs2 a2 h3
  rcases e3 : pkgDirStep pkg.viewBaseWeb pkg.moduleName dst fs2 a2 with ⟨fs3, a3, b3⟩
  rw [e3] at hs3
  have hb3 : b3 = false := hs3.1
  subst hb3
  have hc3 : filesCovered pkg.viewBaseWeb dst (pkgPre pkg.moduleName) fs3 := hs3.2
  have hp3 : fsPreserved fs2 fs3 := by
    have := pkgDirStep_pres pkg.viewBaseWeb pkg.moduleName dst fs2 a2
    rw [e3] at this; exact this
  have hs4 := pkgDirStep_readable pkg.srcViewBaseWeb pkg.moduleName dst fs3 a3 h4
  rcases e4 : pkgDirStep pkg.srcViewBaseWeb pkg.moduleName dst fs3 a3 with ⟨fs4, a4, b4⟩
  rw [e4] at hs4
  have hb4 : b4 = false := hs4.1
  subst hb4
  have hc4 : filesCovered pkg.srcViewBaseWeb dst (pkgPre pkg.moduleName) fs4 := hs4.2
  have hp4 : fsPreserved fs3 fs4 := by
    have := pkgDirStep_pres pkg.srcViewBaseWeb pkg.moduleName dst fs3 a3
    rw [e4] at this; exact this
  have hp5 : fsPreserved fs4 (deploySubModules dst pkg.subModules fs4 a4).1 :=
    deploySubModules_pres dst pkg.subModules fs4 a4
  have hsub := deploySubModules_readable dst pkg.subModules fs4 a4 h5
  simp only [deployPackage, e1, e2, e3, e4]
  exact ⟨filesCovered_mono hp5 (filesCovered_mono hp4 (filesCovered_mono hp3
      (filesCovered_mono hp2 hc1))),
    filesCovered_mono hp5 (filesCovered_mono hp4 (filesCovered_mono hp3 hc2)),
    filesCovered_mono hp5 (filesCovered_mono hp4 hc3),
    filesCovered_mono hp5 hc4,
    hsub⟩

theorem deployPackages_readable (dst : String) (pkgs : List PackageSrc) (fs : FS)
    (acc : Nat) (h : pkgs.all pkgAllReadable = true) :
    ∀ p ∈ pkgs, pkgCovered dst p (deployPackages dst pkgs fs acc).1 := by
  induction pkgs generalizing fs acc with
  | nil => intro p hp; cases hp
  | cons pkg rest ih =>
    have hall := List.all_eq_true.mp h
    intro p hp
    rcases hq : deployPackage dst pkg fs with ⟨fs1, n⟩
    have hred : deployPackages dst (pkg :: rest) fs acc =
        deployPackages dst rest fs1 (acc + n) := by
      simp only [deployPackages, hq]
    rw [hred]
    cases List.mem_cons.mp hp with
    | inl he =>
      subst he
      have hcov := deployPackage_readable dst p fs (hall p (List.mem_cons_self p rest))
      rw [hq] at hcov
      exact pkgCovered_mono (deployPackages_pres dst rest fs1 (acc + n)) hcov
    | inr hr =>
      exact ih fs1 (acc + n)
        (List.all_eq_true.mpr fun x hx => hall x (List.mem_cons_of_mem pkg hx)) p hr

theorem deployExtLayers_fs (dst : String) (job : DeployJob) (src : ThemeJobSrc) (fs : FS)
    (acc : Nat) :
    (deployExtLayers dst job src fs acc).1 = (deployPackages dst src.packages fs acc).1 := by
  rcases hq : deployPackages dst src.packages fs acc with ⟨fs1, total⟩
  rw [deployExtLayers_eq hq]
  by_cases ht : total = 0 <;> simp [ht]

theorem deployLibLayer_readable (dst : String) (job : DeployJob) (src : ThemeJobSrc)
    (fs : FS) (acc : Nat) (hlr : filesAllReadable src.lib = true)
    (hpr : src.packages.all pkgAllReadable = true) :
    filesCovered src.lib dst "" (deployLibLayer dst job src fs acc).1 ∧
    ∀ p ∈ src.packages, pkgCovered dst p (deployLibLayer dst job src fs acc).1 := by
  cases hlib : src.lib with
  | none =>
    rw [deployLibLayer_none hlib]
    refine ⟨filesCovered_none rfl, ?_⟩
    intro p hp
    rw [deployExtLayers_fs]
    exact deployPackages_readable dst src.packages fs acc hpr p hp
  | some lfiles =>
    have hr := filesAllReadable_some hlib hlr
    rcases copyModule_noerr dst ("") (fs) hr with ⟨fs1, n, hq⟩
    rw [deployLibLayer_some_ok hlib hq]
    have hpres : fsPreserved fs1 (deployExtLayers dst job src fs1 (acc + n)).1 := by
      rw [deployExtLayers_fs]
      exact deployPackages_pres dst src.packages fs1 (acc + n)
    refine ⟨filesCovered_mono hpres (filesCovered_of_copy rfl hr hq), ?_⟩
    intro p hp
    rw [deployExtLayers_fs]
    exact deployPackages_readable dst src.packages fs1 (acc + n) hpr p hp

theorem deployThemeWebLayer_readable (dst : String) (job : DeployJob) (src : ThemeJobSrc)
    (fs : FS) (h : srcAllReadable src = true) :
    srcCovered dst src (deployThemeWebLayer dst job src fs).1 := by
  simp only [srcAllReadable, Bool.and_eq_true] at h
  obtain ⟨⟨hw, hl⟩, hp⟩ := h
  cases hweb : src.themeWeb with
  | none =>
    rw [deployThemeWebLayer_none hweb]
    exact ⟨filesCovered_none hweb, (deployLibLayer_readable dst job src fs 0 hl hp).1,
      (deployLibLayer_readable dst job src fs 0 hl hp).2⟩
  | some wfiles =>
    have hr := filesAllReadable_some hweb hw
    rcases copyModule_noerr dst ("") (fs) hr with ⟨fs1, n, hq⟩
    rw [deployThemeWebLayer_some_ok hweb hq]
    have hpres : fsPreserved fs1 (deployLibLayer dst job src fs1 n).1 :=
      deployLibLayer_pres dst job src fs1 n
    exact ⟨filesCovered_mono hpres (filesCovered_of_copy hweb hr hq),
      (deployLibLayer_readable dst job src fs1 n hl hp).1,
      (deployLibLayer_readable dst job src fs1 n hl hp).2⟩

/-! Section: Covered sources copy nothing (stability) -/

theorem copyModule_stable {files : List SrcFile} {dst mp : String} {fs : FS}
    (h : ∀ f ∈ files, shouldSkipFile f.relPath = false →
      (fsLookup fs (joinDest dst mp f.relPath)).isSome = true) :
    copyDirectoryWithModule files dst mp fs = (fs, 0, none) :=
  copyDirGo_stable dst mp files fs 0 h

theorem pkgDirStep_stable {dir : Option (List SrcFile)} {m dst : String} {fs : FS}
    {acc : Nat} (h : filesCovered dir dst (pkgPre m) fs) :
    pkgDirStep dir m dst fs acc = (fs, acc, false) := by
  cases dir with
  | none => rfl
  | some files =>
    have hq : copyDirectoryWithModule files dst (pkgPre m) fs = (fs, 0, none) :=
      copyModule_stable fun f hf hfs => h files rfl f hf hfs
    rw [pkgDirStep_ok acc hq]
    simp

theorem subModuleStep_stable {dst : String} {sub : SubModuleSrc} {fs : FS} {acc : Nat}
    (h : subCovered dst sub fs) : subModuleStep dst sub fs acc = (fs, acc) := by
  have hbase : ∀ a : Nat, subModuleBase dst sub fs a = (fs, a) := by
    intro a
    cases hb : sub.viewBaseWeb with
    | none => exact subModuleBase_none hb
    | some bfiles =>
      have hq : copyDirectoryWithModule bfiles dst sub.subModuleName fs = (fs, 0, none) :=
        copyModule_stable fun f hf hfs => h.2 bfiles hb f hf hfs
      rw [subModuleBase_ok hb hq]
      simp
  cases ha : sub.viewAreaWeb with
  | none => rw [subModuleStep_none ha]; exact hbase acc
  | some afiles =>
    have hq : copyDirectoryWithModule afiles dst sub.subModuleName fs = (fs, 0, none) :=
      copyModule_stable fun f hf hfs => h.1 afiles ha f hf hfs
    rw [subModuleStep_ok ha hq]
    exact hbase (acc + 0)

theorem deploySubModules_stable {dst : String} {subs : List SubModuleSrc} {fs : FS}
    {acc : Nat} (h : ∀ s ∈ subs, subCovered dst s fs) :
    deploySubModules dst subs fs acc = (fs, acc) := by
  induction subs generalizing acc with
  | nil => rfl
  | cons sub rest ih =>
    have hstep : subModuleStep dst sub fs acc = (fs, acc) :=
      subModuleStep_stable (h sub (List.mem_cons_self sub rest))
    simp only [deploySubModules, hstep]
    exact ih (fun s hs => h s (List.mem_cons_of_mem sub hs))

theorem deployPackage_stable {dst : String} {pkg : PackageSrc} {fs : FS}
    (h : pkgCovered dst pkg fs) : deployPackage dst pkg fs = (fs, 0) := by
  have e1 : pkgDirStep pkg.viewAreaWeb pkg.moduleName dst fs 0 = (fs, 0, false) :=
    pkgDirStep_stable h.1
  have e2 : pkgDirStep pkg.srcViewAreaWeb pkg.moduleName dst fs 0 = (fs, 0, false) :=
    pkgDirStep_stable h.2.1
  have e3 : pkgDirStep pkg.viewBaseWeb pkg.moduleName dst fs 0 = (fs, 0, false) :=
    pkgDirStep_stable h.2.2.1
  have e4 : pkgDirStep pkg.srcViewBaseWeb pkg.moduleName dst fs 0 = (fs, 0, false) :=
    pkgDirStep_stable h.2.2.2.1
  have e5 : deploySubModules dst pkg.subModules fs 0 = (fs, 0) :=
    deploySubModules_stable h.2.2.2.2
  simp only [deployPackage, e1, e2, e3, e4, e5]

theorem deployPackages_stable {dst : String} {pkgs : List PackageSrc} {fs : FS} {acc : Nat}
    (h : ∀ p ∈ pkgs, pkgCovered dst p fs) :
    deployPackages dst pkgs fs acc = (fs, acc) := by
  induction pkgs generalizing acc with
  | nil => rfl
  | cons pkg rest ih =>
    have hstep := deployPackage_stable (h pkg (List.mem_cons_self pkg rest))
    simp only [deployPackages, hstep]
    have := @ih (acc + 0) (fun p hp => h p (List.mem_cons_of_mem pkg hp))
    simpa using this

theorem deployThemeWebLayer_stable {dst : String} {job : DeployJob} {src : ThemeJobSrc}
    {fs : FS} (h : srcCovered dst src fs) :
    deployThemeWebLayer dst job src fs = (fs, 0, some (notFoundMsg job)) := by
  have hpack : deployPackages dst src.packages fs 0 = (fs, 0) :=
    deployPackages_stable fun p hp => h.2.2 p hp
  have hext : deployExtLayers dst job src fs 0 = (fs, 0, some (notFoundMsg job)) := by
    rw [deployExtLayers_eq hpack, if_pos rfl]
  have hlib : deployLibLayer dst job src fs 0 = (fs, 0, some (notFoundMsg job)) := by
    cases hl : src.lib with
    | none => rw [deployLibLayer_none hl]; exact hext
    | some lfiles =>
      have hq : copyDirectoryWithModule lfiles dst "" fs = (fs, 0, none) :=
        copyModule_stable fun f hf hfs => h.2.1 lfiles hl f hf hfs
      rw [deployLibLayer_some_ok hl hq]
      simpa using hext
  cases hw : src.themeWeb with
  | none => rw [deployThemeWebLayer_none hw]; exact hlib
  | some wfiles =>
    have hq : copyDirectoryWithModule wfiles dst "" fs = (fs, 0, none) :=
      copyModule_stable fun f hf hfs => h.1 wfiles hw f hf hfs
    rw [deployThemeWebLayer_some_ok hw hq]
    exact hlib

/-- Claim C2: deployment of a (locale, theme, area) job is idempotent: over an
unchanged, readable source tree, running the same job a second time leaves
the destination tree exactly as the first run left it and places 0 new
files (the second run's returned file count is 0), because a file is placed
only when no entry already exists at its destination path. -/
theorem deploy_idempotent (root v : String) (job : DeployJob) (src : ThemeJobSrc) (fs : FS)
    (h : srcAllReadable src = true) :
    (deployTheme root job v src (deployTheme root job v src fs).1).1 =
      (deployTheme root job v src fs).1 ∧
    (deployTheme root job v src (deployTheme root job v src fs).1).2.1 = 0 := by
  by_cases hname : (splitOnChar '/' job.Theme.data).length = 2
  · by_cases hmk : src.mkdirOk = true
    · have hcov : srcCovered (destDirOf root job) src (deployTheme root job v src fs).1 := by
        rw [deployTheme_guards_ok hname hmk]
        exact deployThemeWebLayer_readable _ job src fs h
      rw [@deployTheme_guards_ok root v job src ((deployTheme root job v src fs).1) hname hmk,
        deployThemeWebLayer_stable hcov]
      exact ⟨rfl, rfl⟩
    · have hrun : ∀ g : FS, deployTheme root job v src g =
          (g, 0, some "failed to create destination directory") := by
        intro g
        unfold deployTheme
        rw [if_neg (by simp [hname]), if_pos (by simpa using hmk)]
      simp [hrun]
  · have hrun : ∀ g : FS, deployTheme root job v src g =
        (g, 0, some ("invalid theme name: " ++ job.Theme)) := by
      intro g
      unfold deployTheme
      rw [if_pos (by simpa using hname)]
    simp [hrun]

/-- Witness for C2: a concrete job deployed twice; the second run leaves the
tree unchanged and places 0 files. -/
theorem deploy_idempotent_witness :
    (deployTheme "." ⟨"en_US", "Vendor/Hyva", "frontend"⟩ "v"
        ⟨true, some [⟨"css/app.css", "child", true⟩],
          some [⟨"css/app.css", "parent", true⟩, ⟨"lib.js", "L", true⟩], []⟩
        (deployTheme "." ⟨"en_US", "Vendor/Hyva", "frontend"⟩ "v"
          ⟨true, some [⟨"css/app.css", "child", true⟩],
            some [⟨"css/app.css", "parent", true⟩, ⟨"lib.js", "L", true⟩], []⟩ []).1).1 =
      (deployTheme "." ⟨"en_US", "Vendor/Hyva", "frontend"⟩ "v"
        ⟨true, some [⟨"css/app.css", "child", true⟩],
          some [⟨"css/app.css", "parent", true⟩, ⟨"lib.js", "L", true⟩], []⟩ []).1 ∧
    (deployTheme "." ⟨"en_US", "Vendor/Hyva", "frontend"⟩ "v"
        ⟨true, some [⟨"css/app.css", "child", true⟩],
          some [⟨"css/app.css", "parent", true⟩, ⟨"lib.js", "L", true⟩], []⟩
        (deployTheme "." ⟨"en_US", "Vendor/Hyva", "frontend"⟩ "v"
          ⟨true, some [⟨"css/app.css", "child", true⟩],
            some [⟨"css/app.css", "parent", true⟩, ⟨"lib.js", "L", true⟩], []⟩ []).1).2.1 = 0 :=
  deploy_idempotent "." "v" ⟨"en_US", "Vendor/Hyva", "frontend"⟩
    ⟨true, some [⟨"css/app.css", "child", true⟩],
      some [⟨"css/app.css", "parent", true⟩, ⟨"lib.js", "L", true⟩], []⟩ [] (by decide)

/-- Counterexample for C4: a read error in the theme's own asset layer (a
non-required layer per the claim) is not skipped: it aborts the whole job
with an error and count 0, and the extension layer that follows is never
copied. -/
theorem theme_layer_error_aborts :
    deployTheme "." ⟨"en_US", "Vendor/Hyva", "frontend"⟩ "v"
      ⟨true, some [⟨"css/a.css", "x", false⟩], none,
        [⟨"Vendor_Module", some [⟨"js/b.js", "y", true⟩], none, none, none, []⟩]⟩ [] =
      ([], 0, some "failed to copy theme directory: copy error: css/a.css") := rfl

theorem deployExtLayers_none_or_notfound (dst : String) (job : DeployJob)
    (src : ThemeJobSrc) (fs : FS) (acc : Nat) :
    (deployExtLayers dst job src fs acc).2.2 = none ∨
    (deployExtLayers dst job src fs acc).2.2 = some (notFoundMsg job) := by
  rcases hq : deployPackages dst src.packages fs acc with ⟨fs1, total⟩
  rw [deployExtLayers_eq hq]
  by_cases ht : total = 0 <;> simp [ht]

theorem deployLibLayer_none_or_notfound (dst : String) (job : DeployJob)
    (src : ThemeJobSrc) (fs : FS) (acc : Nat) (hl : filesAllReadable src.lib = true) :
    (deployLibLayer dst job src fs acc).2.2 = none ∨
    (deployLibLayer dst job src fs acc).2.2 = some (notFoundMsg job) := by
  cases hlib : src.lib with
  | none =>
    rw [deployLibLayer_none hlib]
    exact deployExtLayers_none_or_notfound dst job src fs acc
  | some lfiles =>
    have hr := filesAllReadable_some hlib hl
    rcases copyModule_noerr dst ("") (fs) hr with ⟨fs1, n, hq⟩
    rw [deployLibLayer_some_ok hlib hq]
    exact deployExtLayers_none_or_notfound dst job src fs1 (acc + n)

/-- Claim C4 (amended): only a read/copy error in a third-party extension layer
is skipped without aborting the job; an error in the theme's own asset layer
aborts the whole job (as does one in the shared-library layer).  Concretely:
(a) a theme-layer copy error makes `deployTheme` return that error with
count 0; (b) a library-layer copy error does the same; (c) when the theme
and library layers are readable, the job never returns an error other than
the non-fatal "theme directory not found", whatever read errors the
extension layers hit. -/
theorem layer_error_policy :
    (∀ (root v : String) (job : DeployJob) (src : ThemeJobSrc) (fs fs1 : FS)
        (files : List SrcFile) (n : Nat) (e : String),
      (splitOnChar '/' job.Theme.data).length = 2 → src.mkdirOk = true →
      src.themeWeb = some files →
      copyDirectory files (destDirOf root job) fs = (fs1, n, some e) →
      deployTheme root job v src fs =
        (fs1, 0, some ("failed to copy theme directory: " ++ e))) ∧
    (∀ (root v : String) (job : DeployJob) (src : ThemeJobSrc) (fs fs1 : FS)
        (files : List SrcFile) (n : Nat) (e : String),
      (splitOnChar '/' job.Theme.data).length = 2 → src.mkdirOk = true →
      src.themeWeb = none → src.lib = some files →
      copyDirectory files (destDirOf root job) fs = (fs1, n, some e) →
      deployTheme root job v src fs =
        (fs1, 0, some ("failed to copy library files: " ++ e))) ∧
    (∀ (root v : String) (job : DeployJob) (src : ThemeJobSrc) (fs : FS),
      (splitOnChar '/' job.Theme.data).length = 2 → src.mkdirOk = true →
      filesAllReadable src.themeWeb = true → filesAllReadable src.lib = true →
      (deployTheme root job v src fs).2.2 = none ∨
      (deployTheme root job v src fs).2.2 = some (notFoundMsg job)) := by
  refine ⟨?_, ?_, ?_⟩
  · intro root v job src fs fs1 files n e hname hmk hweb hq
    rw [deployTheme_guards_ok hname hmk, deployThemeWebLayer_some_err hweb hq]
  · intro root v job src fs fs1 files n e hname hmk hweb hlib hq
    rw [deployTheme_guards_ok hname hmk, deployThemeWebLayer_none hweb,
      deployLibLayer_some_err hlib hq]
  · intro root v job src fs hname hmk hw hl
    rw [deployTheme_guards_ok hname hmk]
    cases hweb : src.themeWeb with
    | none =>
      rw [deployThemeWebLayer_none hweb]
      exact deployLibLayer_none_or_notfound _ job src fs 0 hl
    | some wfiles =>
      have hr := filesAllReadable_some hweb hw
      rcases copyModule_noerr (destDirOf root job) "" fs hr with
        ⟨fs1, n, hq⟩
      rw [deployThemeWebLayer_some_ok hweb hq]
      exact deployLibLayer_none_or_notfound _ job src fs1 n hl

/-- Witness for the amended C4: (a) theme-layer read error aborts the job;
(b) library-layer read error aborts the job; (c) an extension-layer read
error leaves the job outcome at none-or-not-found. -/
theorem layer_error_policy_witness :
    deployTheme "." ⟨"en_US", "Vendor/Hyva", "frontend"⟩ "v"
        ⟨true, some [⟨"a.css", "x", false⟩], none, []⟩ [] =
      ([], 0, some ("failed to copy theme directory: " ++ "copy error: a.css")) ∧
    deployTheme "." ⟨"en_US", "Vendor/Hyva", "frontend"⟩ "v"
        ⟨true, none, some [⟨"l.js", "x", false⟩], []⟩ [] =
      ([], 0, some ("failed to copy library files: " ++ "copy error: l.js")) ∧
    ((deployTheme "." ⟨"en_US", "Vendor/Hyva", "frontend"⟩ "v"
        ⟨true, none, none,
          [⟨"Vendor_Module", some [⟨"js/b.js", "y", false⟩], none, none, none, []⟩]⟩ []).2.2 =
          none ∨
      (deployTheme "." ⟨"en_US", "Vendor/Hyva", "frontend"⟩ "v"
        ⟨true, none, none,
          [⟨"Vendor_Module", some [⟨"js/b.js", "y", false⟩], none, none, none, []⟩]⟩ []).2.2 =
          some (notFoundMsg ⟨"en_US", "Vendor/Hyva", "frontend"⟩)) :=
  ⟨layer_error_policy.1 "." "v" ⟨"en_US", "Vendor/Hyva", "frontend"⟩
      ⟨true, some [⟨"a.css", "x", false⟩], none, []⟩ [] [] [⟨"a.css", "x", false⟩] 0
      "copy error: a.css" (by decide) rfl rfl rfl,
    layer_error_policy.2.1 "." "v" ⟨"en_US", "Vendor/Hyva", "frontend"⟩
      ⟨true, none, some [⟨"l.js", "x", false⟩], []⟩ [] [] [⟨"l.js", "x", false⟩] 0
      "copy error: l.js" (by decide) rfl rfl rfl rfl,
    layer_error_policy.2.2 "." "v" ⟨"en_US", "Vendor/Hyva", "frontend"⟩
      ⟨true, none, none,
        [⟨"Vendor_Module", some [⟨"js/b.js", "y", false⟩], none, none, none, []⟩]⟩ []
      (by decide) rfl rfl rfl⟩
